import Mathlib

/-!
Verification development for the foton_tms backend (FastAPI + SQLAlchemy).

The relevant handlers are shallowly embedded as pure Lean functions over an
explicit database state `DB`.  SQL `Decimal` quantities become `ℚ` (sums and
differences of finite decimals are exact there), calendar dates become the
record `PDate` ordered through a numeric key, timestamps become `ℤ` seconds,
and SQLAlchemy's `Result.scalar_one_or_none` becomes `scalarOneOrNone`, which
faithfully fails with an internal error on more than one row.  Handlers that
mutate the store return the whole successor state, so an error value models
the request aborting with the store untouched.
-/

namespace Foton

/-- A calendar date; comparisons go through the numeric key
`year * 10000 + month * 100 + day`, which is monotone in (year, month, day)
for real dates. -/
structure PDate where
  year : Nat
  month : Nat
  day : Nat
deriving DecidableEq

def PDate.key (d : PDate) : Nat :=
  d.year * 10000 + d.month * 100 + d.day

instance : LT PDate := ⟨fun a b => a.key < b.key⟩
instance : LE PDate := ⟨fun a b => a.key ≤ b.key⟩

instance (a b : PDate) : Decidable (a < b) :=
  show Decidable (a.key < b.key) from inferInstance

instance (a b : PDate) : Decidable (a ≤ b) :=
  show Decidable (a.key ≤ b.key) from inferInstance

/-- Floor of a rational, computed from the numerator and denominator. -/
def floorQ (q : ℚ) : ℤ := q.num.fdiv q.den

/-- Round a rational to the nearest integer, ties to even
(the rounding used by Python `round` and by `Decimal` quantization). -/
def roundHalfEven (q : ℚ) : ℤ :=
  let f := floorQ q
  let r := q - (f : ℚ)
  if r < 1 / 2 then f
  else if 1 / 2 < r then f + 1
  else if f % 2 = 0 then f else f + 1

/-- `round(x, 2)`: round to two decimal places, ties to even. -/
def round2 (q : ℚ) : ℚ := (roundHalfEven (q * 100) : ℚ) / 100

/-- Error kinds surfaced by the handlers.  `internalError` stands for an
exception that escapes the handler (e.g. SQLAlchemy `MultipleResultsFound`)
and is turned into an HTTP 500 by the global exception handler. -/
inductive ApiError where
  | notFound
  | badRequest
  | conflict
  | internalError
deriving DecidableEq

/-- SQLAlchemy `Result.scalar_one_or_none`: `none` for no row, the row if
there is exactly one, and `MultipleResultsFound` otherwise. -/
def scalarOneOrNone {α : Type} : List α → Except ApiError (Option α)
  | [] => .ok none
  | [a] => .ok (some a)
  | _ :: _ :: _ => .error .internalError

/-- `app.models.enums.WorkItemType`. -/
inductive WorkItemType where
  | epic
  | feature
  | userStory
  | task
deriving DecidableEq

/-- `app.models.enums.WorkItemState`. -/
inductive WorkItemState where
  | new
  | active
  | inProgress
  | resolved
  | closed
  | removed
deriving DecidableEq

/-- `app.models.models.User` (the fields the capacity engine reads). -/
structure User where
  id : Nat
  is_active : Bool
  capacity_per_day : ℚ
deriving DecidableEq

/-- `app.models.models.ProjectMember`. -/
structure ProjectMember where
  project_id : Nat
  user_id : Nat
deriving DecidableEq

/-- `app.models.models.Project` (only the id is relevant here). -/
structure Project where
  id : Nat
deriving DecidableEq

/-- `app.models.models.Iteration`.  `working_days` is the explicit stored
list of working days. -/
structure Iteration where
  id : Nat
  project_id : Nat
  name : String
  start_date : PDate
  end_date : PDate
  working_days : List PDate
deriving DecidableEq

/-- `app.models.models.WorkItem` (bookkeeping columns such as
`description`, `priority`, `tags` and audit dates are omitted; they play no
role in the verified behaviour). -/
structure WorkItem where
  id : Nat
  project_id : Nat
  type : WorkItemType
  title : String
  state : WorkItemState
  parent_id : Option Nat
  assigned_to : Option Nat
  iteration_id : Option Nat
  estimation_hours : Option ℚ
  start_date : Option PDate
  end_date : Option PDate
deriving DecidableEq

/-- `app.models.models.WorkSession`; timestamps are seconds. -/
structure WorkSession where
  id : Nat
  work_item_id : Nat
  user_id : Nat
  started_at : ℤ
  ended_at : Option ℤ
  total_hours : Option ℚ
deriving DecidableEq

/-- `app.models.models.DropPlanItem`. -/
structure DropPlanItem where
  id : Nat
  iteration_id : Nat
  work_item_id : Nat
  assigned_user_id : Nat
  planned_date : PDate
  order_index : Nat
deriving DecidableEq

/-- The relational store. -/
structure DB where
  projects : List Project
  users : List User
  members : List ProjectMember
  iterations : List Iteration
  workItems : List WorkItem
  sessions : List WorkSession
  dropItems : List DropPlanItem
deriving DecidableEq

/-- `_compute_hours` from `app/api/v1/workitems.py`: completed hours are the
`COALESCE(SUM(total_hours), 0)` over the task's closed sessions, plus — when
an open session exists — `round(max(now - started_at, 0) / 3600, 2)`;
remaining hours are `estimation_hours - completed` when the item has an
estimation.  The open-session lookup uses `scalar_one_or_none`. -/
def compute_hours (db : DB) (work_item_id : Nat) (now : ℤ) :
    Except ApiError (ℚ × Option ℚ) := do
  let closed :=
    db.sessions.filter fun s => s.work_item_id == work_item_id && s.ended_at.isSome
  let closed_hours := (closed.map fun s => s.total_hours.getD 0).sum
  let opens :=
    db.sessions.filter fun s => s.work_item_id == work_item_id && s.ended_at.isNone
  let open_started ← scalarOneOrNone (opens.map fun s => s.started_at)
  let open_hours : ℚ :=
    match open_started with
    | some started => round2 (max ((now - started : ℤ) : ℚ) 0 / 3600)
    | none => 0
  let completed := closed_hours + open_hours
  let estimation :=
    ((db.workItems.filter fun w => w.id == work_item_id).head?).bind
      fun w => w.estimation_hours
  let remaining := estimation.map fun e => e - completed
  return (completed, remaining)

/-! ### Generic lemmas about the embedding primitives -/

theorem scalarOneOrNone_eq_head {α : Type} (l : List α) (h : l.length ≤ 1) :
    scalarOneOrNone l = .ok l.head? := by
  match l with
  | [] => rfl
  | [_] => rfl
  | _ :: _ :: _ => simp at h

theorem length_le_one_of_mem {α : Type} {l : List α} {a : α}
    (hmem : a ∈ l) (hlen : l.length ≤ 1) : l = [a] := by
  match l with
  | [] => simp at hmem
  | [b] => simp at hmem; simp [hmem]
  | _ :: _ :: _ => simp at hlen

/-! ### C1: `_compute_hours` -/

/-- Claim C1: for every task, `_compute_hours` returns completed hours equal
to the sum of `total_hours` over the task's sessions with a non-null end
timestamp (zero when there are none), plus, when the task has an open
session, `round(max(now - started_at, 0) / 3600, 2)`; remaining hours equal
`estimation_hours - completed` when the item carries an estimation and are
`none` otherwise; a task with zero sessions yields completed = 0 and
remaining = estimation.  Stated under the store invariant that the task has
at most one open session. -/
theorem compute_hours_spec (db : DB) (wid : Nat) (now : ℤ)
    (hinv : (db.sessions.filter fun s =>
        s.work_item_id == wid && s.ended_at.isNone).length ≤ 1) :
    ((∀ s ∈ db.sessions, s.work_item_id = wid → s.ended_at.isSome) →
      compute_hours db wid now =
        .ok (((db.sessions.filter fun s =>
                s.work_item_id == wid && s.ended_at.isSome).map
                  fun s => s.total_hours.getD 0).sum,
             (((db.workItems.filter fun w => w.id == wid).head?).bind
                fun w => w.estimation_hours).map
               fun e => e - ((db.sessions.filter fun s =>
                s.work_item_id == wid && s.ended_at.isSome).map
                  fun s => s.total_hours.getD 0).sum)) ∧
    (∀ s ∈ db.sessions, s.work_item_id = wid → s.ended_at = none →
      compute_hours db wid now =
        .ok (((db.sessions.filter fun s =>
                s.work_item_id == wid && s.ended_at.isSome).map
                  fun s => s.total_hours.getD 0).sum
              + round2 (max ((now - s.started_at : ℤ) : ℚ) 0 / 3600),
             (((db.workItems.filter fun w => w.id == wid).head?).bind
                fun w => w.estimation_hours).map
               fun e => e - (((db.sessions.filter fun s =>
                s.work_item_id == wid && s.ended_at.isSome).map
                  fun s => s.total_hours.getD 0).sum
              + round2 (max ((now - s.started_at : ℤ) : ℚ) 0 / 3600)))) ∧
    ((∀ s ∈ db.sessions, s.work_item_id ≠ wid) →
      compute_hours db wid now =
        .ok (0, ((db.workItems.filter fun w => w.id == wid).head?).bind
                fun w => w.estimation_hours)) := by
  refine ⟨?_, ?_, ?_⟩
  · intro hclosed
    have hopens : (db.sessions.filter fun s =>
        s.work_item_id == wid && s.ended_at.isNone) = [] := by
      rw [List.filter_eq_nil_iff]
      intro s hs
      simp only [Bool.and_eq_true, beq_iff_eq, Option.isNone_iff_eq_none, not_and]
      intro hw
      have := hclosed s hs hw
      simp [Option.isSome_iff_exists] at this
      rcases this with ⟨v, hv⟩
      simp [hv]
    simp only [compute_hours, hopens, List.map_nil]
    rw [scalarOneOrNone_eq_head _ (by simp)]
    simp [Except.bind, add_zero]
  · intro s hs hwid hend
    have hmem : s ∈ (db.sessions.filter fun s =>
        s.work_item_id == wid && s.ended_at.isNone) := by
      rw [List.mem_filter]
      exact ⟨hs, by simp [hwid, hend]⟩
    have hopens := length_le_one_of_mem hmem hinv
    simp only [compute_hours, hopens, List.map_cons, List.map_nil]
    rw [scalarOneOrNone_eq_head _ (by simp)]
    simp [Except.bind]
  · intro hnone
    have hopens : (db.sessions.filter fun s =>
        s.work_item_id == wid && s.ended_at.isNone) = [] := by
      rw [List.filter_eq_nil_iff]
      intro s hs
      simp [hnone s hs]
    have hclosed : (db.sessions.filter fun s =>
        s.work_item_id == wid && s.ended_at.isSome) = [] := by
      rw [List.filter_eq_nil_iff]
      intro s hs
      simp [hnone s hs]
    simp only [compute_hours, hopens, hclosed, List.map_nil]
    rw [scalarOneOrNone_eq_head _ (by simp)]
    simp only [List.head?_nil, Except.bind]
    have : ∀ o : Option ℚ, o.map (fun e => e - (0 + 0 : ℚ)) = o := by
      intro o; cases o <;> simp
    simp [List.sum_nil, this]

/-- Concrete instantiation of `compute_hours_spec`: a task with closed
sessions of 1 and 5/2 hours, an open session started 1.5 hours before `now`,
and an 8-hour estimation. -/
def c1DB : DB where
  projects := [⟨1⟩]
  users := [⟨5, true, 8⟩]
  members := [⟨1, 5⟩]
  iterations := []
  workItems :=
    [⟨10, 1, .task, "Task A", .new, none, none, none, some 8, none, none⟩]
  sessions :=
    [⟨1, 10, 5, 0, some 3600, some 1⟩,
     ⟨2, 10, 5, 0, some 9000, some (5/2)⟩,
     ⟨3, 10, 5, 0, none, none⟩]
  dropItems := []

theorem compute_hours_spec_witness :
    compute_hours c1DB 10 5400 = .ok (5, some 3) := by
  have h := (compute_hours_spec c1DB 10 5400 (by decide)).2.1
      ⟨3, 10, 5, 0, none, none⟩ (by with_unfolding_all decide) rfl rfl
  exact h.trans (congrArg Except.ok (by with_unfolding_all decide))

/-! ### C2: `get_iteration_capacity` -/

/-- Response row `CapacityByDay` from `app/schemas/schemas.py`. -/
structure CapacityByDay where
  date : PDate
  total_capacity : ℚ
  total_planned : ℚ
  is_overcommitted : Bool
deriving DecidableEq

/-- Response row `CapacityByUser` from `app/schemas/schemas.py`
(`display_name` omitted). -/
structure CapacityByUser where
  user_id : Nat
  total_capacity : ℚ
  total_planned : ℚ
  utilization_percent : ℚ
deriving DecidableEq

/-- Response `IterationCapacityResponse` from `app/schemas/schemas.py`. -/
structure IterationCapacityResult where
  iteration_id : Nat
  total_capacity : ℚ
  total_planned : ℚ
  utilization_percent : ℚ
  is_overcommitted : Bool
  capacity_by_day : List CapacityByDay
  capacity_by_user : List CapacityByUser
deriving DecidableEq

/-- The member query of `get_iteration_capacity`:
`ProjectMember JOIN User` rows with matching project and `is_active`. -/
def active_project_members (db : DB) (project_id : Nat) : List User :=
  (db.members.filter fun pm => pm.project_id == project_id).filterMap
    fun pm => db.users.find? fun u => u.id == pm.user_id && u.is_active

/-- The planned-item query of `get_iteration_capacity` and the drop-plan
readers: `DropPlanItem JOIN WorkItem` rows for the iteration. -/
def iteration_plan_items (db : DB) (iteration_id : Nat) :
    List (DropPlanItem × WorkItem) :=
  (db.dropItems.filter fun d => d.iteration_id == iteration_id).filterMap
    fun d => (db.workItems.find? fun w => w.id == d.work_item_id).map fun w => (d, w)

/-- Planned estimation hours landing on day `d`
(`planned_by_day` in `get_iteration_capacity`). -/
def planned_on_day (db : DB) (iteration_id : Nat) (d : PDate) : ℚ :=
  (((iteration_plan_items db iteration_id).filter
      fun iw => iw.1.planned_date == d).map
    fun iw => iw.2.estimation_hours.getD 0).sum

/-- `get_iteration_capacity` from `app/api/v1/dropplan.py`. -/
def get_iteration_capacity (db : DB) (project_id iteration_id : Nat) :
    Except ApiError IterationCapacityResult := do
  let it? ← scalarOneOrNone (db.iterations.filter fun it => it.id == iteration_id)
  let iteration ← match it? with
    | none => throw ApiError.notFound
    | some it => pure it
  let working_days := iteration.working_days
  let num_days := working_days.length
  let members := active_project_members db project_id
  let total_capacity :=
    (members.map fun u => u.capacity_per_day * (num_days : ℚ)).sum
  let items := iteration_plan_items db iteration_id
  let total_planned := (items.map fun iw => iw.2.estimation_hours.getD 0).sum
  let capacity_per_day_total := (members.map fun u => u.capacity_per_day).sum
  let capacity_by_day := working_days.map fun d =>
    { date := d
      total_capacity := capacity_per_day_total
      total_planned := planned_on_day db iteration_id d
      is_overcommitted :=
        decide (planned_on_day db iteration_id d > capacity_per_day_total) :
      CapacityByDay }
  let planned_by_user := fun (uid : Nat) =>
    ((items.filter fun iw => iw.1.assigned_user_id == uid).map
      fun iw => iw.2.estimation_hours.getD 0).sum
  let capacity_by_user := members.map fun u =>
    { user_id := u.id
      total_capacity := u.capacity_per_day * (num_days : ℚ)
      total_planned := planned_by_user u.id
      utilization_percent :=
        round2 (if u.capacity_per_day * (num_days : ℚ) > 0 then
          planned_by_user u.id / (u.capacity_per_day * (num_days : ℚ)) * 100
        else 0) :
      CapacityByUser }
  let utilization :=
    round2 (if total_capacity > 0 then total_planned / total_capacity * 100 else 0)
  return { iteration_id := iteration_id
           total_capacity := total_capacity
           total_planned := total_planned
           utilization_percent := utilization
           is_overcommitted := decide (total_planned > total_capacity)
           capacity_by_day := capacity_by_day
           capacity_by_user := capacity_by_user }

theorem round2_zero : round2 0 = 0 := by
  with_unfolding_all rfl

theorem round2_ite (c : Prop) [Decidable c] (x : ℚ) :
    round2 (if c then x else 0) = if c then round2 x else 0 := by
  by_cases h : c <;> simp [h, round2_zero]

/-- Claim C2: for every sprint, the capacity endpoint returns totalCapacity
= Σ over active project members of capacityPerDay × numberOfWorkingDays,
totalPlanned = Σ estimation hours of the DropPlanItem-linked work items
(missing estimations counting 0), utilizationPercent =
round(totalPlanned / totalCapacity × 100, 2) with 0 instead of a
division-by-zero failure when totalCapacity = 0 (in particular with zero
active members), and each per-day entry overcommitted exactly when that
day's planned hours exceed the summed members' daily capacities. -/
theorem get_iteration_capacity_spec (db : DB) (pid iid : Nat) (it : Iteration)
    (r : IterationCapacityResult)
    (hit : db.iterations.filter (fun i => i.id == iid) = [it])
    (h : get_iteration_capacity db pid iid = .ok r) :
    r.total_capacity = ((active_project_members db pid).map
        fun u => u.capacity_per_day * (it.working_days.length : ℚ)).sum ∧
    r.total_planned = ((iteration_plan_items db iid).map
        fun iw => iw.2.estimation_hours.getD 0).sum ∧
    r.utilization_percent = (if r.total_capacity > 0 then
        round2 (r.total_planned / r.total_capacity * 100) else 0) ∧
    (active_project_members db pid = [] →
        r.total_capacity = 0 ∧ r.utilization_percent = 0) ∧
    (∀ e ∈ r.capacity_by_day,
        e.date ∈ it.working_days ∧
        e.total_capacity = ((active_project_members db pid).map
            fun u => u.capacity_per_day).sum ∧
        e.total_planned = planned_on_day db iid e.date ∧
        (e.is_overcommitted = true ↔
          planned_on_day db iid e.date > ((active_project_members db pid).map
            fun u => u.capacity_per_day).sum)) := by
  rw [get_iteration_capacity, hit,
    scalarOneOrNone_eq_head _ (by simp)] at h
  simp only [List.head?_cons] at h
  replace h := Except.ok.inj h
  subst h
  refine ⟨rfl, rfl, ?_, ?_, ?_⟩
  · exact round2_ite _ _
  · intro hm
    rw [hm]
    simp [round2_zero]
  · intro e he
    dsimp only at he
    simp only [List.mem_map] at he
    obtain ⟨d, hd, rfl⟩ := he
    refine ⟨hd, rfl, rfl, ?_⟩
    simp

/-- Concrete instantiation for `get_iteration_capacity_spec`: a sprint with
planned work but no active member (the only member row points at an inactive
user). -/
def c2DB : DB where
  projects := [⟨1⟩]
  users := [⟨5, false, 8⟩]
  members := [⟨1, 5⟩]
  iterations :=
    [⟨7, 1, "Sprint 1", ⟨2025, 2, 3⟩, ⟨2025, 2, 7⟩,
      [⟨2025, 2, 3⟩, ⟨2025, 2, 4⟩]⟩]
  workItems :=
    [⟨30, 1, .task, "Task B", .new, none, none, some 7, some 6, none, none⟩]
  sessions := []
  dropItems := [⟨100, 7, 30, 5, ⟨2025, 2, 3⟩, 0⟩]

theorem exists_ok_of_isOk {ε α : Type} (e : Except ε α) (h : e.isOk = true) :
    ∃ a, e = .ok a := by
  cases e with
  | ok a => exact ⟨a, rfl⟩
  | error _ => simp [Except.isOk, Except.toBool] at h

/-- Witness for C2: the zero-active-member sprint yields `.ok` (no
division-by-zero failure) with totalCapacity 0 and utilizationPercent 0. -/
theorem get_iteration_capacity_spec_witness :
    ∃ r, get_iteration_capacity c2DB 1 7 = .ok r ∧
      r.total_capacity = 0 ∧ r.utilization_percent = 0 := by
  obtain ⟨r, hr⟩ := exists_ok_of_isOk (get_iteration_capacity c2DB 1 7)
    (by with_unfolding_all decide)
  have hs := get_iteration_capacity_spec c2DB 1 7
    ⟨7, 1, "Sprint 1", ⟨2025, 2, 3⟩, ⟨2025, 2, 7⟩,
      [⟨2025, 2, 3⟩, ⟨2025, 2, 4⟩]⟩ r (by decide) hr
  exact ⟨r, hr, (hs.2.2.2.1 (by with_unfolding_all decide)).1,
    (hs.2.2.2.1 (by with_unfolding_all decide)).2⟩

/-! ### C3: `validate_no_overlap` -/

/-- The query of `validate_no_overlap` from `app/api/v1/iterations.py`:
iterations of the project with `start_date < end_date_new` and
`end_date > start_date_new`, minus the excluded iteration when one is
given. -/
def overlap_query (db : DB) (project_id : Nat) (start_date end_date : PDate)
    (exclude_iteration_id : Option Nat) : List Iteration :=
  let query := db.iterations.filter fun it =>
    it.project_id == project_id && decide (it.start_date < end_date) &&
      decide (it.end_date > start_date)
  match exclude_iteration_id with
  | some ex => query.filter fun it => it.id != ex
  | none => query

/-- `validate_no_overlap` from `app/api/v1/iterations.py`; the single-row
lookup is `scalar_one_or_none`. -/
def validate_no_overlap (db : DB) (project_id : Nat)
    (start_date end_date : PDate) (exclude_iteration_id : Option Nat) :
    Except ApiError Unit := do
  let existing ← scalarOneOrNone
    (overlap_query db project_id start_date end_date exclude_iteration_id)
  match existing with
  | some _ => throw ApiError.conflict
  | none => pure ()

/-- Two sprints of project 1 that do not overlap each other but both overlap
the candidate range `[2025-01-05, 2025-01-15)`. -/
def c3DB : DB where
  projects := [⟨1⟩]
  users := []
  members := []
  iterations :=
    [⟨1, 1, "A", ⟨2025, 1, 1⟩, ⟨2025, 1, 10⟩, []⟩,
     ⟨2, 1, "B", ⟨2025, 1, 12⟩, ⟨2025, 1, 20⟩, []⟩]
  workItems := []
  sessions := []
  dropItems := []

/-- Counterexample to C3 as stated: some sprint of the project satisfies
`existing.start < end ∧ existing.end > start`, yet `validate_no_overlap`
does not raise ConflictError — two sprints match the query, so the
`scalar_one_or_none` lookup fails with `MultipleResultsFound` (an HTTP 500)
instead. -/
theorem validate_no_overlap_counterexample :
    (∃ it ∈ c3DB.iterations, it.project_id = 1 ∧
        it.start_date < (⟨2025, 1, 15⟩ : PDate) ∧
        it.end_date > (⟨2025, 1, 5⟩ : PDate)) ∧
    validate_no_overlap c3DB 1 ⟨2025, 1, 5⟩ ⟨2025, 1, 15⟩ none =
      .error .internalError ∧
    (Except.error ApiError.internalError ≠
      (Except.error ApiError.conflict : Except ApiError Unit)) := by
  refine ⟨by decide, rfl, by simp⟩

theorem mem_overlap_query {db : DB} {pid : Nat} {s e : PDate}
    {excl : Option Nat} {it : Iteration} :
    it ∈ overlap_query db pid s e excl ↔
      it ∈ db.iterations ∧ it.project_id = pid ∧ it.start_date < e ∧
        it.end_date > s ∧ (∀ x, excl = some x → it.id ≠ x) := by
  unfold overlap_query
  cases excl with
  | none =>
    simp only [List.mem_filter, Bool.and_eq_true, beq_iff_eq,
      decide_eq_true_eq]
    constructor
    · rintro ⟨hmem, ⟨hp, h1⟩, h2⟩
      exact ⟨hmem, hp, h1, h2, by rintro x ⟨⟩⟩
    · rintro ⟨hmem, hp, h1, h2, _⟩
      exact ⟨hmem, ⟨hp, h1⟩, h2⟩
  | some x =>
    simp only [List.mem_filter, Bool.and_eq_true, beq_iff_eq,
      decide_eq_true_eq, bne_iff_ne]
    constructor
    · rintro ⟨⟨hmem, ⟨hp, h1⟩, h2⟩, hne⟩
      exact ⟨hmem, hp, h1, h2, by rintro y ⟨⟩; exact hne⟩
    · rintro ⟨hmem, hp, h1, h2, hall⟩
      exact ⟨⟨hmem, ⟨hp, h1⟩, h2⟩, hall x rfl⟩

/-- Claim C3 (amended): `validate_no_overlap` rejects the candidate range
if and only if some other sprint of the project satisfies
`existing.start < end ∧ existing.end > start` (the sprint `excludeId` being
ignored); the rejection is a ConflictError exactly when one sprint matches —
with two or more matching sprints the `scalar_one_or_none` lookup itself
fails with an internal MultipleResultsFound error instead of ConflictError.
Touching half-open ranges do not conflict, properly overlapping ones do. -/
theorem validate_no_overlap_amended :
    (∀ (db : DB) (pid : Nat) (s e : PDate) (excl : Option Nat),
      (validate_no_overlap db pid s e excl = .ok () ↔
        ¬ ∃ it ∈ db.iterations, it.project_id = pid ∧ it.start_date < e ∧
          it.end_date > s ∧ (∀ x, excl = some x → it.id ≠ x)) ∧
      (validate_no_overlap db pid s e excl = .error .conflict ↔
        (overlap_query db pid s e excl).length = 1) ∧
      (validate_no_overlap db pid s e excl = .error .internalError ↔
        2 ≤ (overlap_query db pid s e excl).length)) ∧
    validate_no_overlap
      ⟨[⟨1⟩], [], [], [⟨1, 1, "A", ⟨2025, 1, 1⟩, ⟨2025, 1, 15⟩, []⟩], [], [], []⟩
      1 ⟨2025, 1, 15⟩ ⟨2025, 1, 31⟩ none = .ok () ∧
    validate_no_overlap
      ⟨[⟨1⟩], [], [], [⟨1, 1, "A", ⟨2025, 1, 1⟩, ⟨2025, 1, 20⟩, []⟩], [], [], []⟩
      1 ⟨2025, 1, 10⟩ ⟨2025, 1, 25⟩ none = .error .conflict := by
  refine ⟨?_, rfl, rfl⟩
  intro db pid s e excl
  rcases hq : overlap_query db pid s e excl with _ | ⟨a, _ | ⟨b, t⟩⟩
  · have hv : validate_no_overlap db pid s e excl = .ok () := by
      unfold validate_no_overlap
      rw [hq]
      rfl
    rw [hv]
    refine ⟨iff_of_true rfl ?_, iff_of_false (by simp) (by simp),
      iff_of_false (by simp) (by simp)⟩
    rintro ⟨it, hmem, hp, h1, h2, hx⟩
    have hin : it ∈ overlap_query db pid s e excl :=
      mem_overlap_query.mpr ⟨hmem, hp, h1, h2, hx⟩
    rw [hq] at hin
    exact absurd hin (List.not_mem_nil it)
  · have hv : validate_no_overlap db pid s e excl = .error .conflict := by
      unfold validate_no_overlap
      rw [hq]
      rfl
    have ha : a ∈ overlap_query db pid s e excl := by
      rw [hq]
      exact List.mem_singleton.mpr rfl
    obtain ⟨hmem, hp, h1, h2, hx⟩ := mem_overlap_query.mp ha
    rw [hv]
    exact ⟨iff_of_false (by simp) (not_not_intro ⟨a, hmem, hp, h1, h2, hx⟩),
      iff_of_true rfl rfl, iff_of_false (by simp) (by simp)⟩
  · have hv : validate_no_overlap db pid s e excl = .error .internalError := by
      unfold validate_no_overlap
      rw [hq]
      rfl
    have ha : a ∈ overlap_query db pid s e excl := by
      rw [hq]
      exact List.mem_cons_self a _
    obtain ⟨hmem, hp, h1, h2, hx⟩ := mem_overlap_query.mp ha
    rw [hv]
    refine ⟨iff_of_false (by simp) (not_not_intro ⟨a, hmem, hp, h1, h2, hx⟩),
      iff_of_false (by simp) ?_, iff_of_true rfl ?_⟩
    · intro hlen
      simp only [List.length_cons] at hlen
      omega
    · simp only [List.length_cons]
      omega

/-! ### C4: `create_work_session` -/

/-- Request schema `WorkSessionCreate` (`description` omitted); the pydantic
validator additionally enforces `ended_at > started_at` when both are
present before the handler runs. -/
structure WorkSessionCreateData where
  started_at : ℤ
  ended_at : Option ℤ
deriving DecidableEq

/-- `create_work_session` from `app/api/v1/workitems.py`: 404 when the work
item is missing in the project, 400 when it is not a Task, 409 when the task
already has an open session; otherwise stores the session, with
`total_hours = round((ended_at - started_at) / 3600, 2)` for an already
closed session and `NULL` for an open one.  `new_session_id` stands for the
generated primary key. -/
def create_work_session (db : DB) (project_id work_item_id : Nat)
    (data : WorkSessionCreateData) (user_id new_session_id : Nat) :
    Except ApiError (DB × WorkSession) := do
  let wi? ← scalarOneOrNone (db.workItems.filter fun w =>
      w.id == work_item_id && w.project_id == project_id)
  let work_item ← match wi? with
    | none => throw ApiError.notFound
    | some w => pure w
  if work_item.type != WorkItemType.task then throw ApiError.badRequest
  let open? ← scalarOneOrNone (db.sessions.filter fun s =>
      s.work_item_id == work_item_id && s.ended_at.isNone)
  if open?.isSome then throw ApiError.conflict
  let total_hours := data.ended_at.map fun te =>
    round2 (((te - data.started_at : ℤ) : ℚ) / 3600)
  let session : WorkSession :=
    ⟨new_session_id, work_item_id, user_id, data.started_at, data.ended_at,
      total_hours⟩
  return ({db with sessions := db.sessions ++ [session]}, session)

/-- Claim C4: creating a work session for a task that already has an open
session is rejected with ConflictError (leaving stored sessions unchanged —
the handler aborts before any insert); once the task has no open session
any more, creation succeeds and appends the new session.  Stated under the
store invariants that the task is found uniquely and has at most one open
session. -/
theorem create_work_session_spec (db : DB) (pid wid : Nat)
    (data : WorkSessionCreateData) (uid nid : Nat) (w : WorkItem)
    (hfound : db.workItems.filter
      (fun x => x.id == wid && x.project_id == pid) = [w])
    (htask : w.type = .task)
    (hinv : (db.sessions.filter fun s =>
      s.work_item_id == wid && s.ended_at.isNone).length ≤ 1) :
    ((∃ s ∈ db.sessions, s.work_item_id = wid ∧ s.ended_at = none) →
      create_work_session db pid wid data uid nid = .error .conflict) ∧
    ((∀ s ∈ db.sessions, s.work_item_id = wid → s.ended_at ≠ none) →
      create_work_session db pid wid data uid nid =
        .ok ({db with sessions := db.sessions ++
            [⟨nid, wid, uid, data.started_at, data.ended_at,
              data.ended_at.map fun te =>
                round2 (((te - data.started_at : ℤ) : ℚ) / 3600)⟩]},
          ⟨nid, wid, uid, data.started_at, data.ended_at,
            data.ended_at.map fun te =>
              round2 (((te - data.started_at : ℤ) : ℚ) / 3600)⟩)) := by
  obtain ⟨w1, w2, wty, w4, w5, w6, w7, w8, w9, w10, w11⟩ := w
  replace htask : wty = WorkItemType.task := htask
  subst htask
  constructor
  · rintro ⟨s, hs, hwid, hend⟩
    have hmem : s ∈ db.sessions.filter
        (fun s => s.work_item_id == wid && s.ended_at.isNone) := by
      rw [List.mem_filter]
      exact ⟨hs, by simp [hwid, hend]⟩
    have hopens := length_le_one_of_mem hmem hinv
    unfold create_work_session
    rw [hfound, hopens]
    rfl
  · intro hnone
    have hopens : db.sessions.filter
        (fun s => s.work_item_id == wid && s.ended_at.isNone) = [] := by
      rw [List.filter_eq_nil_iff]
      intro s hs
      simp only [Bool.and_eq_true, beq_iff_eq, Option.isNone_iff_eq_none,
        not_and]
      exact fun hw => hnone s hs hw
    unfold create_work_session
    rw [hfound, hopens]
    rfl

/-- Concrete store for the C4 witness: task 10 of project 1 with one open
session. -/
def c4DB : DB where
  projects := [⟨1⟩]
  users := [⟨5, true, 8⟩]
  members := [⟨1, 5⟩]
  iterations := []
  workItems :=
    [⟨10, 1, .task, "Task C", .new, none, none, none, some 4, none, none⟩]
  sessions := [⟨1, 10, 5, 0, none, none⟩]
  dropItems := []

/-- The same store after the open session has been closed at t = 3600. -/
def c4DBClosed : DB :=
  { c4DB with sessions := [⟨1, 10, 5, 0, some 3600, some 1⟩] }

/-- Witness for C4: with the open session present the create is rejected
with ConflictError; after it is closed, the same create succeeds. -/
theorem create_work_session_spec_witness :
    create_work_session c4DB 1 10 ⟨7200, none⟩ 5 2 = .error .conflict ∧
    create_work_session c4DBClosed 1 10 ⟨7200, none⟩ 5 2 =
      .ok ({c4DBClosed with sessions :=
          [⟨1, 10, 5, 0, some 3600, some 1⟩, ⟨2, 10, 5, 7200, none, none⟩]},
        ⟨2, 10, 5, 7200, none, none⟩) := by
  constructor
  · exact (create_work_session_spec c4DB 1 10 ⟨7200, none⟩ 5 2
      ⟨10, 1, .task, "Task C", .new, none, none, none, some 4, none, none⟩
      (by with_unfolding_all decide) rfl (by decide)).1
      ⟨⟨1, 10, 5, 0, none, none⟩, by with_unfolding_all decide, rfl, rfl⟩
  · refine ((create_work_session_spec c4DBClosed 1 10 ⟨7200, none⟩ 5 2
      ⟨10, 1, .task, "Task C", .new, none, none, none, some 4, none, none⟩
      (by with_unfolding_all decide) rfl (by decide)).2 ?_).trans
      (by with_unfolding_all rfl)
    intro s hs _
    simp only [c4DBClosed, c4DB, List.mem_singleton] at hs
    subst hs
    simp

/-! ### C5 and C10: the drop-plan scheduler -/

/-- The `ORDER BY planned_date, order_index` clause of the user drop-plan
query, as a relation on joined rows. -/
def dpiLe (a b : DropPlanItem × WorkItem) : Prop :=
  a.1.planned_date.key < b.1.planned_date.key ∨
    (a.1.planned_date.key = b.1.planned_date.key ∧
      a.1.order_index ≤ b.1.order_index)

instance : DecidableRel dpiLe := fun a b => by
  unfold dpiLe
  infer_instance

/-- The user-scoped drop-plan query of `get_user_drop_plan`
(`DropPlanItem JOIN WorkItem` for the iteration and user), before
ordering. -/
def raw_user_plan_items (db : DB) (iteration_id user_id : Nat) :
    List (DropPlanItem × WorkItem) :=
  (db.dropItems.filter fun d =>
      d.iteration_id == iteration_id && d.assigned_user_id == user_id).filterMap
    fun d => (db.workItems.find? fun w => w.id == d.work_item_id).map
      fun w => (d, w)

/-- The same query with its `ORDER BY planned_date, order_index`. -/
def user_plan_items (db : DB) (iteration_id user_id : Nat) :
    List (DropPlanItem × WorkItem) :=
  List.insertionSort dpiLe (raw_user_plan_items db iteration_id user_id)

/-- `load_by_day_data[d]` of `get_user_drop_plan`: planned estimation hours
of the user's items on day `d` (missing estimations count 0). -/
def user_load_on_day (db : DB) (iteration_id user_id : Nat) (d : PDate) : ℚ :=
  (((user_plan_items db iteration_id user_id).filter
      fun iw => iw.1.planned_date == d).map
    fun iw => iw.2.estimation_hours.getD 0).sum

/-- Response row `LoadByDay` from `app/schemas/schemas.py`. -/
structure LoadByDay where
  date : PDate
  capacity : ℚ
  planned : ℚ
  is_overcommitted : Bool
deriving DecidableEq

/-- Response `UserDropPlanResponse` (the per-item `parent_title` decoration
is dropped; it does not feed any computation). -/
structure UserDropPlanResult where
  iteration_id : Nat
  working_days : List PDate
  user_id : Nat
  capacity_per_day : ℚ
  total_capacity : ℚ
  planned_items : List (DropPlanItem × WorkItem)
  load_by_day : List LoadByDay
deriving DecidableEq

/-- `get_user_drop_plan` from `app/api/v1/dropplan.py`. -/
def get_user_drop_plan (db : DB) (project_id iteration_id user_id : Nat) :
    Except ApiError UserDropPlanResult := do
  let it? ← scalarOneOrNone (db.iterations.filter fun it => it.id == iteration_id)
  let iteration ← match it? with
    | none => throw ApiError.notFound
    | some it => pure it
  let user? ← scalarOneOrNone (db.users.filter fun u => u.id == user_id)
  let user ← match user? with
    | none => throw ApiError.notFound
    | some u => pure u
  let items := user_plan_items db iteration_id user_id
  let working_days := iteration.working_days
  let load_by_day := working_days.map fun d =>
    { date := d
      capacity := user.capacity_per_day
      planned := user_load_on_day db iteration_id user_id d
      is_overcommitted :=
        decide (user_load_on_day db iteration_id user_id d >
          user.capacity_per_day) :
      LoadByDay }
  return { iteration_id := iteration.id
           working_days := working_days
           user_id := user.id
           capacity_per_day := user.capacity_per_day
           total_capacity := user.capacity_per_day * (working_days.length : ℚ)
           planned_items := items
           load_by_day := load_by_day }

/-- Request schema `DropPlanItemCreate`. -/
structure DropPlanItemCreateData where
  work_item_id : Nat
  assigned_user_id : Nat
  planned_date : PDate
deriving DecidableEq

/-- `create_drop_plan_item` from `app/api/v1/dropplan.py`: 404 when the
referenced work item does not exist, 409 when a DropPlanItem already exists
for the same (work item, iteration) pair; otherwise inserts the record with
`order_index = 0` and flushes.  `new_item_id` stands for the generated
primary key.  The handler itself validates nothing else — the planned date,
the path's iteration and the assigned user are stored as given — but at
`db.flush()` PostgreSQL enforces the row's foreign keys (`work_item_id`,
`iteration_id`, `assigned_user_id`, declared in `app/models/models.py`): a
dangling reference raises IntegrityError, which the global exception
handler surfaces as HTTP 500 with the insert rolled back. -/
def create_drop_plan_item (db : DB) (project_id iteration_id : Nat)
    (item_data : DropPlanItemCreateData) (new_item_id : Nat) :
    Except ApiError (DB × DropPlanItem) := do
  let wi? ← scalarOneOrNone (db.workItems.filter fun w =>
      w.id == item_data.work_item_id)
  match wi? with
  | none => throw ApiError.notFound
  | some _ => pure ()
  let dup? ← scalarOneOrNone (db.dropItems.filter fun d =>
      d.work_item_id == item_data.work_item_id && d.iteration_id == iteration_id)
  if dup?.isSome then throw ApiError.conflict
  if !(db.workItems.any (fun w => w.id == item_data.work_item_id) &&
      db.iterations.any (fun i => i.id == iteration_id) &&
      db.users.any (fun u => u.id == item_data.assigned_user_id)) then
    throw ApiError.internalError
  let item : DropPlanItem :=
    ⟨new_item_id, iteration_id, item_data.work_item_id,
      item_data.assigned_user_id, item_data.planned_date, 0⟩
  return ({db with dropItems := db.dropItems ++ [item]}, item)

/-- `delete_drop_plan_item` from `app/api/v1/dropplan.py`: 404 when the
record is missing, otherwise deletes the row found by primary key (the
path's iteration id is not consulted). -/
def delete_drop_plan_item (db : DB) (project_id iteration_id item_id : Nat) :
    Except ApiError DB := do
  let it? ← scalarOneOrNone (db.dropItems.filter fun d => d.id == item_id)
  match it? with
  | none => throw ApiError.notFound
  | some _ =>
    pure {db with dropItems := db.dropItems.filter fun d => !(d.id == item_id)}

theorem find?_eq_head?_filter {α : Type} (p : α → Bool) (l : List α) :
    l.find? p = (l.filter p).head? := by
  induction l with
  | nil => rfl
  | cons a t ih =>
    cases h : p a with
    | true => rw [List.find?_cons_of_pos _ h, List.filter_cons_of_pos h,
        List.head?_cons]
    | false => rw [List.find?_cons_of_neg _ (by simp [h]),
        List.filter_cons_of_neg (by simp [h]), ih]

theorem user_load_eq_raw (db : DB) (iid uid : Nat) (d : PDate) :
    user_load_on_day db iid uid d =
      (((raw_user_plan_items db iid uid).filter
          fun iw => iw.1.planned_date == d).map
        fun iw => iw.2.estimation_hours.getD 0).sum := by
  unfold user_load_on_day user_plan_items
  exact (((List.perm_insertionSort dpiLe _).filter _).map _).sum_eq

theorem raw_user_plan_items_append (db : DB) (iid uid : Nat)
    (n : DropPlanItem) (wi : WorkItem)
    (hq : (n.iteration_id == iid && n.assigned_user_id == uid) = true)
    (hfind : db.workItems.find? (fun w => w.id == n.work_item_id) = some wi) :
    raw_user_plan_items {db with dropItems := db.dropItems ++ [n]} iid uid =
      raw_user_plan_items db iid uid ++ [(n, wi)] := by
  unfold raw_user_plan_items
  dsimp only
  rw [List.filter_append, List.filterMap_append]
  have h1 : List.filter
      (fun d => d.iteration_id == iid && d.assigned_user_id == uid) [n] =
      [n] := by
    simp [List.filter, hq]
  rw [h1]
  have h2 : List.filterMap
      (fun d => (db.workItems.find? fun w => w.id == d.work_item_id).map
        fun w => ((d, w) : DropPlanItem × WorkItem)) [n] = [(n, wi)] := by
    simp [List.filterMap, hfind]
  rw [h2]

/-- Claim C5: for a sprint, user and working day, adding a DropPlanItem for
a work item with estimation `e`, assigned to that user on that day, raises
that day's planned load in `get_user_drop_plan` by exactly `e`, leaves
every other day's load unchanged, keeps every per-day entry's
`is_overcommitted` equal to `planned > capacityPerDay`, and removing the
item restores the store (hence the previous planned load).  Stated under
the store invariants: sprint, user and work item found uniquely, no
duplicate plan record for the pair, and a fresh primary key. -/
theorem drop_plan_round_trip (db : DB) (pid iid uid wid2 nid : Nat)
    (day : PDate) (it : Iteration) (u : User) (wi : WorkItem) (e : ℚ)
    (hiter : db.iterations.filter (fun i => i.id == iid) = [it])
    (huser : db.users.filter (fun x => x.id == uid) = [u])
    (hday : day ∈ it.working_days)
    (hwi : db.workItems.filter (fun w => w.id == wid2) = [wi])
    (hest : wi.estimation_hours = some e)
    (hdup : ∀ d ∈ db.dropItems,
      ¬(d.work_item_id = wid2 ∧ d.iteration_id = iid))
    (hfresh : ∀ d ∈ db.dropItems, d.id ≠ nid) :
    ∃ db2 newItem,
      create_drop_plan_item db pid iid ⟨wid2, uid, day⟩ nid =
        .ok (db2, newItem) ∧
      db2 = {db with dropItems := db.dropItems ++ [newItem]} ∧
      user_load_on_day db2 iid uid day = user_load_on_day db iid uid day + e ∧
      (∀ d : PDate, d ≠ day →
        user_load_on_day db2 iid uid d = user_load_on_day db iid uid d) ∧
      (∀ r, get_user_drop_plan db2 pid iid uid = .ok r →
        r.load_by_day = (it.working_days.map fun d =>
          ⟨d, u.capacity_per_day, user_load_on_day db2 iid uid d,
            decide (user_load_on_day db2 iid uid d > u.capacity_per_day)⟩) ∧
        (∀ entry ∈ r.load_by_day,
          entry.is_overcommitted = true ↔
            entry.planned > u.capacity_per_day) ∧
        (⟨day, u.capacity_per_day, user_load_on_day db iid uid day + e,
            decide (user_load_on_day db iid uid day + e >
              u.capacity_per_day)⟩ : LoadByDay) ∈ r.load_by_day) ∧
      delete_drop_plan_item db2 pid iid nid = .ok db := by
  have hfind : db.workItems.find? (fun w => w.id == wid2) = some wi := by
    rw [find?_eq_head?_filter, hwi]
    rfl
  have hraw := raw_user_plan_items_append db iid uid
    ⟨nid, iid, wid2, uid, day, 0⟩ wi (by simp) hfind
  have hload : ∀ d : PDate,
      user_load_on_day
        {db with dropItems := db.dropItems ++ [⟨nid, iid, wid2, uid, day, 0⟩]}
        iid uid d =
      user_load_on_day db iid uid d + (if day == d then e else 0) := by
    intro d
    rw [user_load_eq_raw, hraw, List.filter_append, List.map_append,
      List.sum_append, ← user_load_eq_raw]
    congr 1
    cases hd : (day == d) with
    | true => simp [List.filter_cons, hd, hest]
    | false => simp [List.filter_cons, hd]
  have hloadday : user_load_on_day
      {db with dropItems := db.dropItems ++ [⟨nid, iid, wid2, uid, day, 0⟩]}
      iid uid day = user_load_on_day db iid uid day + e := by
    rw [hload day]
    simp
  refine ⟨{db with dropItems := db.dropItems ++
      [⟨nid, iid, wid2, uid, day, 0⟩]}, ⟨nid, iid, wid2, uid, day, 0⟩,
    ?_, rfl, hloadday, ?_, ?_, ?_⟩
  · have hdup0 : db.dropItems.filter
        (fun d => d.work_item_id == wid2 && d.iteration_id == iid) = [] := by
      rw [List.filter_eq_nil_iff]
      intro d hd
      simp only [Bool.and_eq_true, beq_iff_eq, not_and]
      exact fun h1 h2 => hdup d hd ⟨h1, h2⟩
    have hfw : (db.workItems.any fun w => w.id == wid2) = true := by
      rw [List.any_eq_true]
      have := List.mem_filter.mp (hwi ▸ List.mem_singleton_self wi)
      exact ⟨wi, this.1, this.2⟩
    have hfi : (db.iterations.any fun i => i.id == iid) = true := by
      rw [List.any_eq_true]
      have := List.mem_filter.mp (hiter ▸ List.mem_singleton_self it)
      exact ⟨it, this.1, this.2⟩
    have hfu : (db.users.any fun u => u.id == uid) = true := by
      rw [List.any_eq_true]
      have := List.mem_filter.mp (huser ▸ List.mem_singleton_self u)
      exact ⟨u, this.1, this.2⟩
    unfold create_drop_plan_item
    rw [hwi, hdup0, hfw, hfi, hfu]
    rfl
  · intro d hd
    have hne : (day == d) = false := beq_eq_false_iff_ne.mpr (Ne.symm hd)
    rw [hload d, hne]
    simp
  · intro r hr
    unfold get_user_drop_plan at hr
    dsimp only at hr
    rw [hiter, huser] at hr
    replace hr := Except.ok.inj hr
    subst hr
    refine ⟨rfl, ?_, ?_⟩
    · intro entry he
      dsimp only at he
      simp only [List.mem_map] at he
      obtain ⟨d, _, rfl⟩ := he
      simp
    · dsimp only
      refine List.mem_map.mpr ⟨day, hday, ?_⟩
      dsimp only
      rw [hloadday]
  · have hq2 : List.filter (fun d => d.id == nid)
        (db.dropItems ++ [⟨nid, iid, wid2, uid, day, 0⟩]) =
        [⟨nid, iid, wid2, uid, day, 0⟩] := by
      rw [List.filter_append]
      have h1 : db.dropItems.filter (fun d => d.id == nid) = [] := by
        rw [List.filter_eq_nil_iff]
        intro d hd
        simp [hfresh d hd]
      rw [h1]
      simp [List.filter_cons]
    have hq3 : List.filter (fun d => !(d.id == nid))
        (db.dropItems ++ [⟨nid, iid, wid2, uid, day, 0⟩]) = db.dropItems := by
      rw [List.filter_append]
      have h1 : db.dropItems.filter (fun d => !(d.id == nid)) =
          db.dropItems := by
        rw [List.filter_eq_self]
        intro d hd
        simp [hfresh d hd]
      have h2 : List.filter (fun d => !(d.id == nid))
          ([⟨nid, iid, wid2, uid, day, 0⟩] : List DropPlanItem) = [] := by
        simp [List.filter_cons]
      rw [h1, h2, List.append_nil]
    unfold delete_drop_plan_item
    dsimp only
    rw [hq2]
    exact congrArg
      (fun l => (Except.ok ⟨db.projects, db.users, db.members, db.iterations,
        db.workItems, db.sessions, l⟩ : Except ApiError DB)) hq3

/-- Concrete store for the C5 witness: sprint 7 with two working days, an
active member with 8h/day capacity, a 6h task and an empty drop plan. -/
def c5DB : DB where
  projects := [⟨1⟩]
  users := [⟨5, true, 8⟩]
  members := [⟨1, 5⟩]
  iterations :=
    [⟨7, 1, "Sprint 2", ⟨2025, 3, 3⟩, ⟨2025, 3, 7⟩,
      [⟨2025, 3, 3⟩, ⟨2025, 3, 4⟩]⟩]
  workItems :=
    [⟨30, 1, .task, "Task D", .new, none, none, some 7, some 6, none, none⟩]
  sessions := []
  dropItems := []

/-- Witness for C5 at a concrete store: planning the 6h task on 2025-03-03
raises that day's load by 6, and removing the record restores the store. -/
theorem drop_plan_round_trip_witness :
    ∃ db2 newItem,
      create_drop_plan_item c5DB 1 7 ⟨30, 5, ⟨2025, 3, 3⟩⟩ 99 =
        .ok (db2, newItem) ∧
      user_load_on_day db2 7 5 ⟨2025, 3, 3⟩ =
        user_load_on_day c5DB 7 5 ⟨2025, 3, 3⟩ + 6 ∧
      delete_drop_plan_item db2 1 7 99 = .ok c5DB := by
  obtain ⟨db2, n, h1, _, h3, _, _, h6⟩ := drop_plan_round_trip c5DB 1 7 5 30 99
    ⟨2025, 3, 3⟩
    ⟨7, 1, "Sprint 2", ⟨2025, 3, 3⟩, ⟨2025, 3, 7⟩,
      [⟨2025, 3, 3⟩, ⟨2025, 3, 4⟩]⟩
    ⟨5, true, 8⟩
    ⟨30, 1, .task, "Task D", .new, none, none, some 7, some 6, none, none⟩
    6
    (by decide) (by with_unfolding_all decide) (by decide)
    (by with_unfolding_all decide) (by with_unfolding_all decide)
    (by simp [c5DB]) (by simp [c5DB])
  exact ⟨db2, n, h1, h3, h6⟩

/-- Claim C10: `create_drop_plan_item` fails with NotFound exactly when the
referenced work item does not exist, with ConflictError exactly when the
work item exists and a DropPlanItem for the same (work item, iteration)
pair already does, and with an internal error (IntegrityError raised by the
foreign-key constraints of `drop_plan_items` at `db.flush()`, HTTP 500)
exactly when, past those two checks, the referenced iteration or assigned
user does not exist; in every other case it succeeds and stores the record
exactly as given — no check that the iteration belongs to the path's
project, that the assigned user is a member of the project, or that the
planned date lies inside the sprint or on a working day.  Stated under the
primary-key/uniqueness invariants of the store. -/
theorem create_drop_plan_item_conditions (db : DB) (pid iid : Nat)
    (item_data : DropPlanItemCreateData) (nid : Nat)
    (hpk : (db.workItems.filter fun w =>
      w.id == item_data.work_item_id).length ≤ 1)
    (huq : (db.dropItems.filter fun d =>
      d.work_item_id == item_data.work_item_id &&
        d.iteration_id == iid).length ≤ 1) :
    (create_drop_plan_item db pid iid item_data nid = .error .notFound ↔
      ∀ w ∈ db.workItems, w.id ≠ item_data.work_item_id) ∧
    (create_drop_plan_item db pid iid item_data nid = .error .conflict ↔
      ((∃ w ∈ db.workItems, w.id = item_data.work_item_id) ∧
        ∃ d ∈ db.dropItems, d.work_item_id = item_data.work_item_id ∧
          d.iteration_id = iid)) ∧
    (create_drop_plan_item db pid iid item_data nid = .error .internalError ↔
      ((∃ w ∈ db.workItems, w.id = item_data.work_item_id) ∧
        (∀ d ∈ db.dropItems,
          ¬(d.work_item_id = item_data.work_item_id ∧ d.iteration_id = iid)) ∧
        ((∀ i ∈ db.iterations, i.id ≠ iid) ∨
          ∀ u ∈ db.users, u.id ≠ item_data.assigned_user_id))) ∧
    (((∃ w ∈ db.workItems, w.id = item_data.work_item_id) ∧
        (∀ d ∈ db.dropItems,
          ¬(d.work_item_id = item_data.work_item_id ∧ d.iteration_id = iid)) ∧
        (∃ i ∈ db.iterations, i.id = iid) ∧
        ∃ u ∈ db.users, u.id = item_data.assigned_user_id) →
      create_drop_plan_item db pid iid item_data nid =
        .ok ({db with dropItems := db.dropItems ++
            [⟨nid, iid, item_data.work_item_id, item_data.assigned_user_id,
              item_data.planned_date, 0⟩]},
          ⟨nid, iid, item_data.work_item_id, item_data.assigned_user_id,
            item_data.planned_date, 0⟩)) := by
  rcases hqw : db.workItems.filter
      (fun w => w.id == item_data.work_item_id) with _ | ⟨w, tw⟩
  · have hv : create_drop_plan_item db pid iid item_data nid =
        .error .notFound := by
      unfold create_drop_plan_item
      rw [hqw]
      rfl
    have hnone : ∀ w ∈ db.workItems, w.id ≠ item_data.work_item_id := by
      intro w hw
      have := List.filter_eq_nil_iff.mp hqw w hw
      simpa using this
    refine ⟨iff_of_true hv hnone, iff_of_false (by rw [hv]; simp) ?_,
      iff_of_false (by rw [hv]; simp) ?_, fun h => absurd h ?_⟩
    · rintro ⟨⟨w, hw, hid⟩, -⟩
      exact hnone w hw hid
    · rintro ⟨⟨w, hw, hid⟩, -, -⟩
      exact hnone w hw hid
    · rintro ⟨⟨w, hw, hid⟩, -, -, -⟩
      exact hnone w hw hid
  · have htw : tw = [] := by
      have := hqw ▸ hpk
      cases tw with
      | nil => rfl
      | cons x xs => simp at this
    subst htw
    have hwmem : w ∈ db.workItems ∧ w.id = item_data.work_item_id := by
      have := List.mem_filter.mp (hqw ▸ List.mem_singleton_self w)
      simpa using this
    rcases hqd : db.dropItems.filter
        (fun d => d.work_item_id == item_data.work_item_id &&
          d.iteration_id == iid) with _ | ⟨d0, td⟩
    · have hA : (db.workItems.any fun w => w.id == item_data.work_item_id)
          = true := by
        rw [List.any_eq_true]
        exact ⟨w, hwmem.1, by simp [hwmem.2]⟩
      have hnodup : ∀ d ∈ db.dropItems,
          ¬(d.work_item_id = item_data.work_item_id ∧
            d.iteration_id = iid) := by
        intro d hd hcontra
        have : d ∈ db.dropItems.filter
            (fun d => d.work_item_id == item_data.work_item_id &&
              d.iteration_id == iid) := by
          rw [List.mem_filter]
          exact ⟨hd, by simp [hcontra.1, hcontra.2]⟩
        rw [hqd] at this
        exact absurd this (List.not_mem_nil d)
      have hexw : ∃ w ∈ db.workItems, w.id = item_data.work_item_id :=
        ⟨w, hwmem.1, hwmem.2⟩
      cases hB : db.iterations.any (fun i => i.id == iid) with
      | false =>
        have hnoi : ∀ i ∈ db.iterations, i.id ≠ iid := by
          intro i hi hcontra
          have : (db.iterations.any fun i => i.id == iid) = true :=
            List.any_eq_true.mpr ⟨i, hi, by simp [hcontra]⟩
          rw [hB] at this
          simp at this
        have hv : create_drop_plan_item db pid iid item_data nid =
            .error .internalError := by
          unfold create_drop_plan_item
          rw [hqw, hqd, hA, hB]
          rfl
        refine ⟨iff_of_false (by rw [hv]; simp) ?_,
          iff_of_false (by rw [hv]; simp) ?_,
          iff_of_true hv ⟨hexw, hnodup, Or.inl hnoi⟩, ?_⟩
        · intro hall
          exact hall w hwmem.1 hwmem.2
        · rintro ⟨-, d, hd, h1, h2⟩
          exact hnodup d hd ⟨h1, h2⟩
        · rintro ⟨-, -, ⟨i, hi, hid⟩, -⟩
          exact absurd hid (hnoi i hi)
      | true =>
        have hexi : ∃ i ∈ db.iterations, i.id = iid := by
          obtain ⟨i, hi, hbeq⟩ := List.any_eq_true.mp hB
          exact ⟨i, hi, by simpa using hbeq⟩
        cases hC : db.users.any
            (fun u => u.id == item_data.assigned_user_id) with
        | false =>
          have hnou : ∀ u ∈ db.users,
              u.id ≠ item_data.assigned_user_id := by
            intro u hu hcontra
            have : (db.users.any fun u =>
                u.id == item_data.assigned_user_id) = true :=
              List.any_eq_true.mpr ⟨u, hu, by simp [hcontra]⟩
            rw [hC] at this
            simp at this
          have hv : create_drop_plan_item db pid iid item_data nid =
              .error .internalError := by
            unfold create_drop_plan_item
            rw [hqw, hqd, hA, hB, hC]
            rfl
          refine ⟨iff_of_false (by rw [hv]; simp) ?_,
            iff_of_false (by rw [hv]; simp) ?_,
            iff_of_true hv ⟨hexw, hnodup, Or.inr hnou⟩, ?_⟩
          · intro hall
            exact hall w hwmem.1 hwmem.2
          · rintro ⟨-, d, hd, h1, h2⟩
            exact hnodup d hd ⟨h1, h2⟩
          · rintro ⟨-, -, -, u, hu, hid⟩
            exact absurd hid (hnou u hu)
        | true =>
          have hexu : ∃ u ∈ db.users, u.id = item_data.assigned_user_id := by
            obtain ⟨u, hu, hbeq⟩ := List.any_eq_true.mp hC
            exact ⟨u, hu, by simpa using hbeq⟩
          have hv : create_drop_plan_item db pid iid item_data nid =
              .ok ({db with dropItems := db.dropItems ++
                  [⟨nid, iid, item_data.work_item_id,
                    item_data.assigned_user_id, item_data.planned_date, 0⟩]},
                ⟨nid, iid, item_data.work_item_id,
                  item_data.assigned_user_id, item_data.planned_date, 0⟩) := by
            unfold create_drop_plan_item
            rw [hqw, hqd, hA, hB, hC]
            rfl
          refine ⟨iff_of_false (by rw [hv]; simp) ?_,
            iff_of_false (by rw [hv]; simp) ?_,
            iff_of_false (by rw [hv]; simp) ?_, fun _ => hv⟩
          · intro hall
            exact hall w hwmem.1 hwmem.2
          · rintro ⟨-, d, hd, h1, h2⟩
            exact hnodup d hd ⟨h1, h2⟩
          · rintro ⟨-, -, h | h⟩
            · obtain ⟨i, hi, hid⟩ := hexi
              exact absurd hid (h i hi)
            · obtain ⟨u, hu, hid⟩ := hexu
              exact absurd hid (h u hu)
    · have htd : td = [] := by
        have := hqd ▸ huq
        cases td with
        | nil => rfl
        | cons x xs => simp at this
      subst htd
      have hdmem : d0 ∈ db.dropItems ∧
          d0.work_item_id = item_data.work_item_id ∧
          d0.iteration_id = iid := by
        have := List.mem_filter.mp (hqd ▸ List.mem_singleton_self d0)
        simpa using this
      have hv : create_drop_plan_item db pid iid item_data nid =
          .error .conflict := by
        unfold create_drop_plan_item
        rw [hqw, hqd]
        rfl
      refine ⟨iff_of_false (by rw [hv]; simp) ?_,
        iff_of_true hv ⟨⟨w, hwmem.1, hwmem.2⟩,
          d0, hdmem.1, hdmem.2.1, hdmem.2.2⟩,
        iff_of_false (by rw [hv]; simp) ?_, ?_⟩
      · intro hall
        exact hall w hwmem.1 hwmem.2
      · rintro ⟨-, hnone, -⟩
        exact absurd ⟨hdmem.2.1, hdmem.2.2⟩ (hnone d0 hdmem.1)
      · rintro ⟨-, hnone, -, -⟩
        exact absurd ⟨hdmem.2.1, hdmem.2.2⟩ (hnone d0 hdmem.1)

/-- Concrete store refuting the claim's success clause: a work item but no
iterations and no users at all. -/
def c10DB : DB where
  projects := []
  users := []
  members := []
  iterations := []
  workItems :=
    [⟨30, 1, .task, "Task E", .new, none, none, some 7, some 6, none, none⟩]
  sessions := []
  dropItems := []

/-- Counterexample for C10's success clause: work item 30 exists and no
DropPlanItem duplicates the pair (30, 77), yet the request does not
succeed — iteration 77 and user 9 are absent, so the row's foreign-key
constraints make `db.flush()` raise IntegrityError (HTTP 500). -/
theorem create_drop_plan_item_counterexample :
    (∃ w ∈ c10DB.workItems, w.id = 30) ∧
    (∀ d ∈ c10DB.dropItems,
      ¬(d.work_item_id = 30 ∧ d.iteration_id = 77)) ∧
    create_drop_plan_item c10DB 1 77 ⟨30, 9, ⟨2030, 1, 1⟩⟩ 5 =
      .error .internalError ∧
    ∀ db2 item, create_drop_plan_item c10DB 1 77 ⟨30, 9, ⟨2030, 1, 1⟩⟩ 5 ≠
      .ok (db2, item) := by
  have h3 : create_drop_plan_item c10DB 1 77 ⟨30, 9, ⟨2030, 1, 1⟩⟩ 5 =
      .error .internalError := by with_unfolding_all rfl
  refine ⟨⟨⟨30, 1, .task, "Task E", .new, none, none, some 7, some 6, none,
    none⟩, by with_unfolding_all decide, rfl⟩, by simp [c10DB], h3, ?_⟩
  intro db2 item hcontra
  rw [h3] at hcontra
  exact Except.noConfusion hcontra

/-- Concrete store for the C10 witness: iteration 77 exists but belongs to
project 2, user 9 exists but is a member of no project. -/
def c10DB2 : DB where
  projects := [⟨1⟩]
  users := [⟨9, true, 8⟩]
  members := []
  iterations :=
    [⟨77, 2, "Other", ⟨2025, 5, 1⟩, ⟨2025, 5, 10⟩, [⟨2025, 5, 2⟩]⟩]
  workItems :=
    [⟨30, 1, .task, "Task E", .new, none, none, some 7, some 6, none, none⟩]
  sessions := []
  dropItems := []

/-- Witness for C10: iteration 77 exists but belongs to project 2, not the
path's project 1; user 9 exists but is a member of no project; the planned
date 2030-01-01 lies far outside the sprint — the insert still succeeds. -/
theorem create_drop_plan_item_conditions_witness :
    (∃ i ∈ c10DB2.iterations, i.id = 77 ∧ i.project_id ≠ 1) ∧
    c10DB2.members = [] ∧
    create_drop_plan_item c10DB2 1 77 ⟨30, 9, ⟨2030, 1, 1⟩⟩ 5 =
      .ok ({c10DB2 with dropItems := [⟨5, 77, 30, 9, ⟨2030, 1, 1⟩, 0⟩]},
        ⟨5, 77, 30, 9, ⟨2030, 1, 1⟩, 0⟩) := by
  refine ⟨⟨⟨77, 2, "Other", ⟨2025, 5, 1⟩, ⟨2025, 5, 10⟩, [⟨2025, 5, 2⟩]⟩,
    List.mem_singleton_self _, rfl, by decide⟩, rfl, ?_⟩
  exact (create_drop_plan_item_conditions c10DB2 1 77 ⟨30, 9, ⟨2030, 1, 1⟩⟩ 5
    (by decide) (by decide)).2.2.2
    ⟨⟨⟨30, 1, .task, "Task E", .new, none, none, some 7, some 6, none, none⟩,
      List.mem_singleton_self _, rfl⟩, by simp [c10DB2],
      ⟨⟨77, 2, "Other", ⟨2025, 5, 1⟩, ⟨2025, 5, 10⟩, [⟨2025, 5, 2⟩]⟩,
        List.mem_singleton_self _, rfl⟩,
      ⟨9, true, 8⟩, List.mem_singleton_self _, rfl⟩

/-! ### C7: `create_iteration` / `update_iteration` and the working-day
invariant -/

/-- `validate_dates` from `app/api/v1/iterations.py`: rejects
`start_date ≥ end_date`. -/
def validate_dates (start_date end_date : PDate) : Except ApiError Unit :=
  if start_date ≥ end_date then throw ApiError.badRequest else pure ()

/-- `validate_working_days` from `app/api/v1/iterations.py`: rejects any
supplied day outside `[start_date, end_date]`. -/
def validate_working_days (working_days : List PDate)
    (start_date end_date : PDate) : Except ApiError Unit :=
  if working_days.any (fun d => decide (d < start_date) || decide (d > end_date))
  then throw ApiError.badRequest
  else pure ()

/-- Request schema `IterationCreate` (`goal` omitted). -/
structure IterationCreateData where
  name : String
  start_date : PDate
  end_date : PDate
  working_days : List PDate
deriving DecidableEq

/-- Partial-update schema `IterationUpdate` (`state` and `goal` omitted;
they feed no validation).  `none` means the field is absent from the
request. -/
structure IterationUpdateData where
  name : Option String := none
  start_date : Option PDate := none
  end_date : Option PDate := none
  working_days : Option (List PDate) := none
deriving DecidableEq

/-- `create_iteration` from `app/api/v1/iterations.py`.  `new_iteration_id`
stands for the generated primary key. -/
def create_iteration (db : DB) (project_id : Nat) (data : IterationCreateData)
    (new_iteration_id : Nat) : Except ApiError (DB × Iteration) := do
  let p? ← scalarOneOrNone (db.projects.filter fun p => p.id == project_id)
  match p? with
  | none => throw ApiError.notFound
  | some _ => pure ()
  validate_dates data.start_date data.end_date
  validate_working_days data.working_days data.start_date data.end_date
  validate_no_overlap db project_id data.start_date data.end_date none
  let iteration : Iteration :=
    ⟨new_iteration_id, project_id, data.name, data.start_date, data.end_date,
      data.working_days⟩
  return ({db with iterations := db.iterations ++ [iteration]}, iteration)

/-- `update_iteration` from `app/api/v1/iterations.py`: re-validates dates
and overlap when either bound changes, and validates `working_days` only
when that field is supplied — the stored working days are not re-checked
against a changed range. -/
def update_iteration (db : DB) (project_id iteration_id : Nat)
    (data : IterationUpdateData) : Except ApiError (DB × Iteration) := do
  let it? ← scalarOneOrNone (db.iterations.filter fun it =>
      it.id == iteration_id && it.project_id == project_id)
  let iteration ← match it? with
    | none => throw ApiError.notFound
    | some it => pure it
  let start_date := data.start_date.getD iteration.start_date
  let end_date := data.end_date.getD iteration.end_date
  if data.start_date.isSome || data.end_date.isSome then
    validate_dates start_date end_date
  match data.working_days with
  | some ds => validate_working_days ds start_date end_date
  | none => pure ()
  if data.start_date.isSome || data.end_date.isSome then
    validate_no_overlap db project_id start_date end_date (some iteration_id)
  let updated : Iteration :=
    { iteration with
      name := data.name.getD iteration.name
      start_date := start_date
      end_date := end_date
      working_days := data.working_days.getD iteration.working_days }
  return ({db with iterations := db.iterations.map fun it =>
      if it.id == iteration_id then updated else it}, updated)

/-- Store for the C7 failing input: one sprint 2025-01-01..2025-01-10 whose
stored working day is 2025-01-02. -/
def c7DB : DB where
  projects := [⟨1⟩]
  users := []
  members := []
  iterations :=
    [⟨1, 1, "Sprint 3", ⟨2025, 1, 1⟩, ⟨2025, 1, 10⟩, [⟨2025, 1, 2⟩]⟩]
  workItems := []
  sessions := []
  dropItems := []

/-- Claim C7 fails on the code: updating only `start_date` to 2025-01-05
succeeds, yet the stored working day 2025-01-02 now lies before the sprint's
new start — `update_iteration` never re-validates previously stored working
days when only the range shrinks, although `validate_working_days` and the
spec's invariant demand working days ⊆ [start, end]. -/
theorem update_iteration_breaks_working_days_invariant :
    ∃ db2 it2,
      update_iteration c7DB 1 1 ⟨none, some ⟨2025, 1, 5⟩, none, none⟩ =
        .ok (db2, it2) ∧
      it2.start_date = ⟨2025, 1, 5⟩ ∧
      it2.working_days = [⟨2025, 1, 2⟩] ∧
      ∃ d ∈ it2.working_days, d < it2.start_date := by
  refine ⟨{c7DB with iterations :=
      [⟨1, 1, "Sprint 3", ⟨2025, 1, 5⟩, ⟨2025, 1, 10⟩, [⟨2025, 1, 2⟩]⟩]},
    ⟨1, 1, "Sprint 3", ⟨2025, 1, 5⟩, ⟨2025, 1, 10⟩, [⟨2025, 1, 2⟩]⟩,
    rfl, rfl, rfl, ⟨2025, 1, 2⟩, List.mem_singleton_self _, by decide⟩

/-! ### C6: the task mover (spec §4.5) -/

/-- Modelled from the spec: the Task Mover endpoint (spec §4.5,
`moveTask(sprintId, taskId, newStart, newEnd)`) is absent from `src/` —
only its request schema `DropPlanTaskMove` is declared (unused) in
`app/schemas/schemas.py`.  Preconditions, in the spec's order: task found in
the sprint's project (404), task.type = Task, task already assigned to this
sprint, newStart and newEnd within [sprint.start, sprint.end], and
newEnd ≥ newStart — each failure a ValidationError (400); on success the
task's start/end dates are set. -/
def move_task (db : DB) (project_id iteration_id work_item_id : Nat)
    (new_start new_end : PDate) : Except ApiError (DB × WorkItem) := do
  let it? ← scalarOneOrNone (db.iterations.filter fun i =>
      i.id == iteration_id && i.project_id == project_id)
  let sprint ← match it? with
    | none => throw ApiError.notFound
    | some i => pure i
  let wi? ← scalarOneOrNone (db.workItems.filter fun w =>
      w.id == work_item_id && w.project_id == project_id)
  let task ← match wi? with
    | none => throw ApiError.notFound
    | some w => pure w
  if task.type ≠ WorkItemType.task then throw ApiError.badRequest
  else if task.iteration_id ≠ some iteration_id then throw ApiError.badRequest
  else if ¬(sprint.start_date ≤ new_start ∧ new_start ≤ sprint.end_date) then
    throw ApiError.badRequest
  else if ¬(sprint.start_date ≤ new_end ∧ new_end ≤ sprint.end_date) then
    throw ApiError.badRequest
  else if new_end < new_start then throw ApiError.badRequest
  else
    let updated := { task with
      start_date := some new_start
      end_date := some new_end }
    return ({db with workItems := db.workItems.map fun w =>
        if w.id == work_item_id then updated else w}, updated)

/-- Claim C6: `moveTask` rejects with ValidationError any move whose
newStart or newEnd lies outside the sprint's [start, end], rejects moving a
non-Task work item, and requires newEnd ≥ newStart; the task's dates are
updated only when every precondition holds. -/
theorem move_task_spec (db : DB) (pid iid wid3 : Nat) (ns ne : PDate)
    (sp : Iteration) (t : WorkItem)
    (hsp : db.iterations.filter
      (fun i => i.id == iid && i.project_id == pid) = [sp])
    (ht : db.workItems.filter
      (fun w => w.id == wid3 && w.project_id == pid) = [t]) :
    (t.type ≠ .task →
      move_task db pid iid wid3 ns ne = .error .badRequest) ∧
    (t.type = .task → t.iteration_id = some iid →
      ¬(sp.start_date ≤ ns ∧ ns ≤ sp.end_date ∧
        sp.start_date ≤ ne ∧ ne ≤ sp.end_date) →
      move_task db pid iid wid3 ns ne = .error .badRequest) ∧
    (t.type = .task → t.iteration_id = some iid →
      ne < ns → move_task db pid iid wid3 ns ne = .error .badRequest) ∧
    (∀ db2 w2, move_task db pid iid wid3 ns ne = .ok (db2, w2) →
      t.type = .task ∧ t.iteration_id = some iid ∧
      sp.start_date ≤ ns ∧ ns ≤ sp.end_date ∧
      sp.start_date ≤ ne ∧ ne ≤ sp.end_date ∧ ns ≤ ne ∧
      w2 = {t with start_date := some ns, end_date := some ne} ∧
      db2 = {db with workItems := db.workItems.map fun w =>
        if w.id == wid3 then
          {t with start_date := some ns, end_date := some ne} else w}) := by
  have hred : move_task db pid iid wid3 ns ne =
      (if t.type ≠ WorkItemType.task then throw ApiError.badRequest
       else if t.iteration_id ≠ some iid then throw ApiError.badRequest
       else if ¬(sp.start_date ≤ ns ∧ ns ≤ sp.end_date) then
         throw ApiError.badRequest
       else if ¬(sp.start_date ≤ ne ∧ ne ≤ sp.end_date) then
         throw ApiError.badRequest
       else if ne < ns then throw ApiError.badRequest
       else .ok ({db with workItems := db.workItems.map fun w =>
           if w.id == wid3 then
             {t with start_date := some ns, end_date := some ne} else w},
         {t with start_date := some ns, end_date := some ne})) := by
    unfold move_task
    rw [hsp, ht]
    rfl
  rw [hred]
  refine ⟨?_, ?_, ?_, ?_⟩
  · intro hne
    rw [if_pos hne]
    rfl
  · intro hty hit hnb
    rw [if_neg (not_not_intro hty), if_neg (not_not_intro hit)]
    by_cases h1 : sp.start_date ≤ ns ∧ ns ≤ sp.end_date
    · have h2 : ¬(sp.start_date ≤ ne ∧ ne ≤ sp.end_date) := by
        intro h2
        exact hnb ⟨h1.1, h1.2, h2.1, h2.2⟩
      rw [if_neg (not_not_intro h1), if_pos h2]
      rfl
    · rw [if_pos h1]
      rfl
  · intro hty hit hlt
    rw [if_neg (not_not_intro hty), if_neg (not_not_intro hit)]
    by_cases h1 : sp.start_date ≤ ns ∧ ns ≤ sp.end_date
    · by_cases h2 : sp.start_date ≤ ne ∧ ne ≤ sp.end_date
      · rw [if_neg (not_not_intro h1), if_neg (not_not_intro h2),
          if_pos hlt]
        rfl
      · rw [if_neg (not_not_intro h1), if_pos h2]
        rfl
    · rw [if_pos h1]
      rfl
  · intro db2 w2 hok
    by_cases h1 : t.type ≠ WorkItemType.task
    · rw [if_pos h1] at hok
      exact absurd hok (by simp)
    rw [if_neg h1] at hok
    by_cases h2 : t.iteration_id ≠ some iid
    · rw [if_pos h2] at hok
      exact absurd hok (by simp)
    rw [if_neg h2] at hok
    by_cases h3 : ¬(sp.start_date ≤ ns ∧ ns ≤ sp.end_date)
    · rw [if_pos h3] at hok
      exact absurd hok (by simp)
    rw [if_neg h3] at hok
    by_cases h4 : ¬(sp.start_date ≤ ne ∧ ne ≤ sp.end_date)
    · rw [if_pos h4] at hok
      exact absurd hok (by simp)
    rw [if_neg h4] at hok
    by_cases h5 : ne < ns
    · rw [if_pos h5] at hok
      exact absurd hok (by simp)
    rw [if_neg h5] at hok
    replace hok := Except.ok.inj hok
    have hdb := congrArg Prod.fst hok
    have hw := congrArg Prod.snd hok
    exact ⟨not_not.mp h1, not_not.mp h2, (not_not.mp h3).1,
      (not_not.mp h3).2, (not_not.mp h4).1, (not_not.mp h4).2,
      Nat.le_of_not_lt h5, hw.symm, hdb.symm⟩

/-- Concrete store for the C6 witness. -/
def c6DB : DB where
  projects := [⟨1⟩]
  users := []
  members := []
  iterations :=
    [⟨7, 1, "Sprint 4", ⟨2025, 3, 3⟩, ⟨2025, 3, 7⟩,
      [⟨2025, 3, 3⟩, ⟨2025, 3, 4⟩]⟩]
  workItems :=
    [⟨40, 1, .task, "Task F", .new, none, none, some 7, some 6,
      some ⟨2025, 3, 3⟩, some ⟨2025, 3, 3⟩⟩,
     ⟨41, 1, .userStory, "Story G", .new, none, none, some 7, none,
      none, none⟩]
  sessions := []
  dropItems := []

set_option maxRecDepth 4096 in
/-- Witness for C6: moving task 40 to a start before the sprint is rejected,
and moving the UserStory 41 is rejected. -/
theorem move_task_spec_witness :
    move_task c6DB 1 7 40 ⟨2025, 3, 1⟩ ⟨2025, 3, 4⟩ = .error .badRequest ∧
    move_task c6DB 1 7 41 ⟨2025, 3, 3⟩ ⟨2025, 3, 4⟩ = .error .badRequest := by
  constructor
  · exact (move_task_spec c6DB 1 7 40 ⟨2025, 3, 1⟩ ⟨2025, 3, 4⟩
      ⟨7, 1, "Sprint 4", ⟨2025, 3, 3⟩, ⟨2025, 3, 7⟩,
        [⟨2025, 3, 3⟩, ⟨2025, 3, 4⟩]⟩
      ⟨40, 1, .task, "Task F", .new, none, none, some 7, some 6,
        some ⟨2025, 3, 3⟩, some ⟨2025, 3, 3⟩⟩
      (by decide) (by with_unfolding_all decide)).2.1 rfl rfl
      (by decide)
  · exact (move_task_spec c6DB 1 7 41 ⟨2025, 3, 3⟩ ⟨2025, 3, 4⟩
      ⟨7, 1, "Sprint 4", ⟨2025, 3, 3⟩, ⟨2025, 3, 7⟩,
        [⟨2025, 3, 3⟩, ⟨2025, 3, 4⟩]⟩
      ⟨41, 1, .userStory, "Story G", .new, none, none, some 7, none,
        none, none⟩
      (by decide) (by with_unfolding_all decide)).1 (by decide)

/-! ### C9: the per-user sprint task view (spec §4.3) -/

/-- Modelled from the spec: sort key of the task view's
`ORDER BY start date, title`.  Tasks in this view carry start dates
(`DropPlanTaskResponse.start_date` is non-optional in
`app/schemas/schemas.py`); a missing date sorts first here. -/
def task_sort_key (w : WorkItem) : Nat :=
  (w.start_date.map PDate.key).getD 0

/-- Modelled from the spec: "Ordering: by start date, then title,
ascending" (spec §4.3). -/
def taskLe (a b : WorkItem) : Prop :=
  task_sort_key a < task_sort_key b ∨
    (task_sort_key a = task_sort_key b ∧ a.title ≤ b.title)

instance : DecidableRel taskLe := fun a b => by
  unfold taskLe
  infer_instance

instance : IsTotal WorkItem taskLe := by
  constructor
  intro a b
  rcases Nat.lt_trichotomy (task_sort_key a) (task_sort_key b) with h | h | h
  · exact Or.inl (Or.inl h)
  · rcases le_total a.title b.title with ht | ht
    · exact Or.inl (Or.inr ⟨h, ht⟩)
    · exact Or.inr (Or.inr ⟨h.symm, ht⟩)
  · exact Or.inr (Or.inl h)

instance : IsTrans WorkItem taskLe := by
  constructor
  intro a b c hab hbc
  rcases hab with h1 | ⟨h1, t1⟩
  · rcases hbc with h2 | ⟨h2, _⟩
    · exact Or.inl (h1.trans h2)
    · exact Or.inl (h2 ▸ h1)
  · rcases hbc with h2 | ⟨h2, t2⟩
    · exact Or.inl (h1 ▸ h2)
    · exact Or.inr ⟨h1.trans h2, t1.trans t2⟩

/-- Modelled from the spec: the Task Retrieval & Assignment View
(spec §4.3, `tasksForSprint(sprintId, assignedUserId?)`) is absent from
`src/` — only its response schemas (`DropPlanTaskResponse`,
`DropPlanUserResponse`) are declared (unused) in `app/schemas/schemas.py`.
It returns the sprint's Task-typed work items, filtered to the given
assignee when `assignedUserId` is supplied and to unassigned tasks when it
is omitted, ordered by start date then title, ascending. -/
def tasksForSprint (db : DB) (sprint_id : Nat)
    (assigned_user_id : Option Nat) : List WorkItem :=
  List.insertionSort taskLe (db.workItems.filter fun w =>
    w.iteration_id == some sprint_id && w.type == WorkItemType.task &&
      (match assigned_user_id with
       | some uid => w.assigned_to == some uid
       | none => w.assigned_to == none))

/-- Claim C9: `tasksForSprint` returns exactly the sprint's Task-typed work
items with the requested assignee (the given user when `assignedUserId` is
supplied, unassigned tasks when it is omitted — never all tasks), ordered
by start date, then title, ascending. -/
theorem tasksForSprint_spec (db : DB) (sid : Nat) (auid : Option Nat) :
    (tasksForSprint db sid auid).Perm (db.workItems.filter fun w =>
      w.iteration_id == some sid && w.type == WorkItemType.task &&
        (match auid with
         | some uid => w.assigned_to == some uid
         | none => w.assigned_to == none)) ∧
    (∀ w, w ∈ tasksForSprint db sid auid ↔
      (w ∈ db.workItems ∧ w.type = .task ∧ w.iteration_id = some sid ∧
        (match auid with
         | some uid => w.assigned_to = some uid
         | none => w.assigned_to = none))) ∧
    (tasksForSprint db sid auid).Sorted taskLe := by
  refine ⟨List.perm_insertionSort _ _, ?_, List.sorted_insertionSort _ _⟩
  intro w
  unfold tasksForSprint
  rw [List.mem_insertionSort, List.mem_filter]
  cases auid with
  | none =>
    simp only [Bool.and_eq_true, beq_iff_eq]
    constructor
    · rintro ⟨hmem, ⟨h1, h2⟩, h3⟩
      exact ⟨hmem, h2, h1, by simpa using h3⟩
    · rintro ⟨hmem, h2, h1, h3⟩
      exact ⟨hmem, ⟨h1, h2⟩, by simpa using h3⟩
  | some uid =>
    simp only [Bool.and_eq_true, beq_iff_eq]
    constructor
    · rintro ⟨hmem, ⟨h1, h2⟩, h3⟩
      exact ⟨hmem, h2, h1, h3⟩
    · rintro ⟨hmem, h2, h1, h3⟩
      exact ⟨hmem, ⟨h1, h2⟩, h3⟩

/-! ### C8: `update_work_item` and the Removed cascade -/

/-- `child.state = WorkItemState.REMOVED`. -/
def markRemoved (w : WorkItem) : WorkItem :=
  {w with state := .removed}

/-- `_set_removed_recursive` from `app/api/v1/workitems.py`: re-queries the
children of `parent_id` within the project, marks each Removed and recurses
into it.  The Python recursion carries no fuel and terminates only on
acyclic parent graphs; `fuel` bounds the recursion depth, and the caller
passes the item count, which suffices for every acyclic store (chains of
distinct items are no longer than the store). -/
def _set_removed_recursive (fuel parent_id project_id : Nat)
    (items : List WorkItem) : List WorkItem :=
  match fuel with
  | 0 => items
  | fuel + 1 =>
    let children := items.filter fun c =>
      c.parent_id == some parent_id && c.project_id == project_id
    children.foldl (fun acc child =>
      _set_removed_recursive fuel child.id project_id
        (acc.map fun w => if w.id == child.id then markRemoved w else w))
      items

/-- Partial-update schema `WorkItemUpdate` (`description`, `priority` and
`tags` omitted — they feed no validation or cascade).  An outer `none`
means the field is absent from the request; nullable columns carry an inner
`Option`. -/
structure WorkItemUpdateData where
  type : Option WorkItemType := none
  title : Option String := none
  state : Option WorkItemState := none
  parent_id : Option (Option Nat) := none
  assigned_to : Option (Option Nat) := none
  iteration_id : Option (Option Nat) := none
  estimation_hours : Option (Option ℚ) := none
  start_date : Option (Option PDate) := none
  end_date : Option (Option PDate) := none
deriving DecidableEq

/-- The `setattr` loop of `update_work_item`. -/
def applyWorkItemUpdate (w : WorkItem) (d : WorkItemUpdateData) : WorkItem :=
  { w with
    type := d.type.getD w.type
    title := d.title.getD w.title
    state := d.state.getD w.state
    parent_id := d.parent_id.getD w.parent_id
    assigned_to := d.assigned_to.getD w.assigned_to
    iteration_id := d.iteration_id.getD w.iteration_id
    estimation_hours := d.estimation_hours.getD w.estimation_hours
    start_date := d.start_date.getD w.start_date
    end_date := d.end_date.getD w.end_date }

/-- `update_work_item` from `app/api/v1/workitems.py`: 404 when the item is
missing in the project; 400 when a supplied non-null parent is the item
itself or not in the project, when a supplied non-null assignee is not a
project member, or when a supplied non-null iteration is not in the
project; applies the field updates; for a Task given an iteration while its
start date is null, copies the iteration's start date into both dates; and
when the update sets state = Removed, cascades Removed over all
descendants. -/
def update_work_item (db : DB) (project_id work_item_id : Nat)
    (data : WorkItemUpdateData) : Except ApiError (DB × WorkItem) := do
  let wi? ← scalarOneOrNone (db.workItems.filter fun w =>
      w.id == work_item_id && w.project_id == project_id)
  let work_item ← match wi? with
    | none => throw ApiError.notFound
    | some w => pure w
  match data.parent_id with
  | some (some p) => do
    if p == work_item_id then throw ApiError.badRequest
    let par? ← scalarOneOrNone (db.workItems.filter fun w =>
        w.id == p && w.project_id == project_id)
    match par? with
    | none => throw ApiError.badRequest
    | some _ => pure ()
  | _ => pure ()
  match data.assigned_to with
  | some (some a) => do
    let m? ← scalarOneOrNone (db.members.filter fun pm =>
        pm.project_id == project_id && pm.user_id == a)
    match m? with
    | none => throw ApiError.badRequest
    | some _ => pure ()
  | _ => pure ()
  match data.iteration_id with
  | some (some i) => do
    let it? ← scalarOneOrNone (db.iterations.filter fun it =>
        it.id == i && it.project_id == project_id)
    match it? with
    | none => throw ApiError.badRequest
    | some _ => pure ()
  | _ => pure ()
  let updated0 := applyWorkItemUpdate work_item data
  let updated1 ←
    match data.iteration_id with
    | some (some i) =>
      if updated0.type == WorkItemType.task && updated0.start_date.isNone then do
        let itf ← scalarOneOrNone (db.iterations.filter fun it => it.id == i)
        match itf with
        | some it => pure { updated0 with
            start_date := some it.start_date
            end_date := some it.start_date }
        | none => pure updated0
      else pure updated0
    | _ => pure updated0
  let items1 := db.workItems.map fun w =>
    if w.id == work_item_id then updated1 else w
  let items2 :=
    if data.state == some WorkItemState.removed then
      _set_removed_recursive items1.length work_item_id project_id items1
    else items1
  return ({db with workItems := items2}, updated1)

/-- Mark Removed exactly the items whose id satisfies `p`. -/
def markIf (p : Nat → Bool) (w : WorkItem) : WorkItem :=
  if p w.id then markRemoved w else w

/-- `withinDesc fuel root proj items x`: `x` is reachable from `root` along
child edges (within the project) in at most `fuel` steps. -/
def withinDesc : Nat → Nat → Nat → List WorkItem → Nat → Bool
  | 0, _, _, _, _ => false
  | fuel + 1, root, proj, items, x =>
    (items.filter fun c =>
        c.parent_id == some root && c.project_id == proj).any
      fun c => c.id == x || withinDesc fuel c.id proj items x

theorem markIf_id (p : Nat → Bool) (w : WorkItem) : (markIf p w).id = w.id := by
  unfold markIf markRemoved
  split <;> rfl

theorem markIf_parent (p : Nat → Bool) (w : WorkItem) :
    (markIf p w).parent_id = w.parent_id := by
  unfold markIf markRemoved
  split <;> rfl

theorem markIf_proj (p : Nat → Bool) (w : WorkItem) :
    (markIf p w).project_id = w.project_id := by
  unfold markIf markRemoved
  split <;> rfl

theorem markIf_comp (p q : Nat → Bool) (w : WorkItem) :
    markIf q (markIf p w) = markIf (fun x => p x || q x) w := by
  unfold markIf markRemoved
  cases hp : p w.id with
  | true =>
    simp only [if_pos rfl, hp, Bool.true_or, if_pos]
    cases hq : q w.id <;> simp
  | false =>
    simp only [hp, Bool.false_or, if_neg, Bool.false_eq_true, ite_false]

theorem map_markIf_markIf (p q : Nat → Bool) (l : List WorkItem) :
    (l.map (markIf p)).map (markIf q) =
      l.map (markIf fun x => p x || q x) := by
  rw [List.map_map]
  apply List.map_congr_left
  intro w _
  exact markIf_comp p q w

theorem markIf_congr_point {p q : Nat → Bool} (w : WorkItem)
    (h : p w.id = q w.id) : markIf p w = markIf q w := by
  unfold markIf
  rw [h]

theorem filter_children_map_markIf (p : Nat → Bool) (r proj : Nat)
    (l : List WorkItem) :
    (l.map (markIf p)).filter
        (fun c => c.parent_id == some r && c.project_id == proj) =
      (l.filter fun c => c.parent_id == some r && c.project_id == proj).map
        (markIf p) := by
  rw [List.filter_map]
  congr 1
  apply List.filter_congr
  intro w _
  simp [Function.comp, markIf_parent, markIf_proj]

theorem any_congr_local {α : Type} {l : List α} {f g : α → Bool}
    (h : ∀ a ∈ l, f a = g a) : l.any f = l.any g := by
  induction l with
  | nil => rfl
  | cons a t ih =>
    simp only [List.any_cons]
    rw [h a (List.mem_cons_self a t),
      ih fun b hb => h b (List.mem_cons.mpr (Or.inr hb))]

theorem withinDesc_map_markIf (fuel : Nat) (p : Nat → Bool) :
    ∀ (r proj : Nat) (items : List WorkItem) (x : Nat),
      withinDesc fuel r proj (items.map (markIf p)) x =
        withinDesc fuel r proj items x := by
  induction fuel with
  | zero => intro r proj items x; rfl
  | succ fuel ih =>
    intro r proj items x
    unfold withinDesc
    rw [filter_children_map_markIf, List.any_map]
    apply any_congr_local
    intro c _
    simp only [Function.comp, markIf_id, ih]

theorem map_markIf_false (l : List WorkItem) :
    l.map (markIf fun _ => false) = l := by
  induction l with
  | nil => rfl
  | cons a t ih => simp [markIf, ih]

theorem beq_nat_comm (a b : Nat) : (a == b) = (b == a) := by
  by_cases h : a = b
  · subst h
    rfl
  · simp [h, Ne.symm h]

theorem srr_map_markIf (fuel : Nat) :
    ∀ (proj root : Nat) (items : List WorkItem) (p : Nat → Bool),
      _set_removed_recursive fuel root proj (items.map (markIf p)) =
        items.map (markIf fun x =>
          p x || withinDesc fuel root proj items x) := by
  induction fuel with
  | zero =>
    intro proj root items p
    show items.map (markIf p) = _
    apply List.map_congr_left
    intro w _
    apply markIf_congr_point
    simp [withinDesc]
  | succ fuel ih =>
    intro proj root items p
    have hfold : ∀ (cs : List WorkItem) (q : Nat → Bool),
        (cs.map (markIf p)).foldl (fun acc child =>
          _set_removed_recursive fuel child.id proj
            (acc.map fun w => if w.id == child.id then markRemoved w else w))
          (items.map (markIf q)) =
        items.map (markIf fun x =>
          q x || cs.any fun c =>
            c.id == x || withinDesc fuel c.id proj items x) := by
      intro cs
      induction cs with
      | nil =>
        intro q
        simp only [List.map_nil, List.foldl_nil, List.any_nil]
        apply List.map_congr_left
        intro w _
        apply markIf_congr_point
        simp
      | cons c cs ihc =>
        intro q
        simp only [List.map_cons, List.foldl_cons]
        have hstep : ((items.map (markIf q)).map fun w =>
            if w.id == (markIf p c).id then markRemoved w else w) =
            items.map (markIf fun x => q x || (x == c.id)) := by
          rw [show ((items.map (markIf q)).map fun w =>
              if w.id == (markIf p c).id then markRemoved w else w) =
              (items.map (markIf q)).map
                (markIf fun i => i == (markIf p c).id) from rfl,
            map_markIf_markIf]
          apply List.map_congr_left
          intro w _
          apply markIf_congr_point
          rw [markIf_id]
        rw [hstep, markIf_id, ih proj c.id items (fun x => q x || (x == c.id)),
          ihc]
        apply List.map_congr_left
        intro w _
        apply markIf_congr_point
        simp only [List.any_cons, Bool.or_assoc,
          show (w.id == c.id) = (c.id == w.id) from beq_nat_comm _ _]
    show ((items.map (markIf p)).filter fun c =>
        c.parent_id == some root && c.project_id == proj).foldl _ _ = _
    rw [filter_children_map_markIf]
    rw [hfold (items.filter fun c =>
      c.parent_id == some root && c.project_id == proj) p]
    apply List.map_congr_left
    intro w _
    apply markIf_congr_point
    rfl

theorem srr_closed (fuel root proj : Nat) (items : List WorkItem) :
    _set_removed_recursive fuel root proj items =
      items.map (markIf (withinDesc fuel root proj items)) := by
  have h := srr_map_markIf fuel proj root items (fun _ => false)
  rw [map_markIf_false] at h
  rw [h]
  apply List.map_congr_left
  intro w _
  apply markIf_congr_point
  simp

/-- `c` is a child of `p` in the store: some item with id `c` has parent
`p` and lives in project `proj`. -/
def childOf (items : List WorkItem) (proj p c : Nat) : Prop :=
  ∃ w ∈ items, w.id = c ∧ w.parent_id = some p ∧ w.project_id = proj

/-- `x` is a strict descendant of `p` (a child, transitively) through the
parent edges of the store, within project `proj`. -/
inductive Descendant (items : List WorkItem) (proj : Nat) : Nat → Nat → Prop
  | child {p c : Nat} : childOf items proj p c → Descendant items proj p c
  | step {p q c : Nat} : Descendant items proj p q → childOf items proj q c →
      Descendant items proj p c

/-- A child chain from `r` down to `x`, recording the visited ids. -/
inductive Chain (items : List WorkItem) (proj : Nat) :
    Nat → List Nat → Nat → Prop
  | single {r c : Nat} : childOf items proj r c → Chain items proj r [c] c
  | cons {r c x : Nat} {ids : List Nat} : childOf items proj r c →
      Chain items proj c ids x → Chain items proj r (c :: ids) x

theorem desc_prepend {items : List WorkItem} {proj r q x : Nat}
    (h : childOf items proj r q) (hd : Descendant items proj q x) :
    Descendant items proj r x := by
  induction hd with
  | child h2 => exact .step (.child h) h2
  | step _ h2 ih => exact .step ih h2

theorem chain_append {items : List WorkItem} {proj : Nat} :
    ∀ {r m x : Nat} {u v : List Nat}, Chain items proj r u m →
      Chain items proj m v x → Chain items proj r (u ++ v) x := by
  intro r m x u v h1
  induction h1 with
  | single h => intro h2; exact .cons h h2
  | cons h _ ih => intro h2; exact .cons h (ih h2)

theorem chain_nil_false {items : List WorkItem} {proj r x : Nat}
    (h : Chain items proj r [] x) : False := by
  nomatch h

theorem desc_iff_chain {items : List WorkItem} {proj r x : Nat} :
    Descendant items proj r x ↔ ∃ ids, Chain items proj r ids x := by
  constructor
  · intro hd
    induction hd with
    | child h => exact ⟨_, .single h⟩
    | step _ h2 ih =>
      obtain ⟨ids, hch⟩ := ih
      exact ⟨ids ++ [_], chain_append hch (.single h2)⟩
  · rintro ⟨ids, hch⟩
    induction hch with
    | single h => exact .child h
    | cons h _ ih => exact desc_prepend h ih

theorem chain_split {items : List WorkItem} {proj : Nat} :
    ∀ {r x a : Nat} {ids pre suf : List Nat}, Chain items proj r ids x →
      ids = pre ++ a :: suf →
      Chain items proj r (pre ++ [a]) a ∧ (suf = [] → a = x) ∧
        (suf ≠ [] → Chain items proj a suf x) := by
  intro r x a ids pre suf hch
  induction hch generalizing pre with
  | single h =>
    rename_i r2 c
    intro heq
    cases pre with
    | nil =>
      simp only [List.nil_append] at heq
      injection heq with h1 h2
      subst h1
      subst h2
      exact ⟨.single h, fun _ => rfl, fun hn => absurd rfl hn⟩
    | cons b pre2 =>
      simp only [List.cons_append] at heq
      injection heq with h1 h2
      exact absurd h2.symm (by simp)
  | cons h htail ih =>
    rename_i r2 c x2 ids2
    intro heq
    cases pre with
    | nil =>
      simp only [List.nil_append] at heq
      injection heq with h1 h2
      subst h1
      subst h2
      refine ⟨.single h, ?_, fun _ => htail⟩
      intro hnil
      subst hnil
      exact absurd htail chain_nil_false
    | cons b pre2 =>
      simp only [List.cons_append] at heq
      injection heq with h1 h2
      subst h1
      obtain ⟨g1, g2, g3⟩ := ih h2
      exact ⟨.cons h g1, g2, g3⟩

theorem chain_ids_mem {items : List WorkItem} {proj : Nat} :
    ∀ {r x : Nat} {ids : List Nat}, Chain items proj r ids x →
      ∀ a ∈ ids, a ∈ items.map fun w => w.id := by
  intro r x ids hch
  induction hch with
  | single h =>
    intro a ha
    rw [List.mem_singleton] at ha
    subst ha
    obtain ⟨w, hw, hid, _⟩ := h
    exact List.mem_map.mpr ⟨w, hw, hid⟩
  | cons h _ ih =>
    intro a ha
    rw [List.mem_cons] at ha
    rcases ha with rfl | ha
    · obtain ⟨w, hw, hid, _⟩ := h
      exact List.mem_map.mpr ⟨w, hw, hid⟩
    · exact ih a ha

theorem exists_dup_split {α : Type} :
    ∀ {l : List α}, ¬l.Nodup →
      ∃ (a : α) (l1 l2 : List α), l = l1 ++ a :: l2 ∧ a ∈ l2 := by
  intro l
  induction l with
  | nil => intro h; exact absurd List.nodup_nil h
  | cons b t ih =>
    intro h
    by_cases hb : b ∈ t
    · exact ⟨b, [], t, rfl, hb⟩
    · have ht : ¬t.Nodup := fun ht => h (List.nodup_cons.mpr ⟨hb, ht⟩)
      obtain ⟨a, l1, l2, heq, ha⟩ := ih ht
      exact ⟨a, b :: l1, l2, by rw [heq]; rfl, ha⟩

theorem chain_bound {items : List WorkItem} {proj : Nat}
    (hnodup : (items.map fun w => w.id).Nodup) :
    ∀ (n : Nat) {ids : List Nat} {r x : Nat}, ids.length ≤ n →
      Chain items proj r ids x →
      ∃ ids2, Chain items proj r ids2 x ∧ ids2.length ≤ items.length := by
  intro n
  induction n with
  | zero =>
    intro ids r x hlen hch
    match ids, hlen with
    | [], _ => exact absurd hch chain_nil_false
  | succ n ih =>
    intro ids r x hlen hch
    by_cases hnd : ids.Nodup
    · refine ⟨ids, hch, ?_⟩
      calc ids.length = ids.toFinset.card :=
            (List.toFinset_card_of_nodup hnd).symm
        _ ≤ ((items.map fun w => w.id).toFinset).card := by
            apply Finset.card_le_card
            intro a ha
            rw [List.mem_toFinset] at *
            exact chain_ids_mem hch a (by simpa using ha)
        _ ≤ (items.map fun w => w.id).length := List.toFinset_card_le _
        _ = items.length := List.length_map ..
    · obtain ⟨a, l1, l2, heq, ha⟩ := exists_dup_split hnd
      subst heq
      obtain ⟨hch1, _, hch2⟩ := chain_split hch rfl
      have hl2 : l2 ≠ [] := fun h => by
        subst h
        exact absurd ha (List.not_mem_nil a)
      have hch2b := hch2 hl2
      obtain ⟨l3, l4, heq2⟩ := List.append_of_mem ha
      subst heq2
      obtain ⟨_, hl4nil, hch4⟩ := chain_split hch2b rfl
      by_cases h4 : l4 = []
      · have hax := hl4nil h4
        subst hax
        subst h4
        refine ih ?_ hch1
        simp only [List.length_append, List.length_cons, List.length_nil]
          at hlen ⊢
        omega
      · have hch4b := hch4 h4
        have hglue := chain_append hch1 hch4b
        refine ih ?_ hglue
        simp only [List.length_append, List.length_cons, List.length_nil]
          at hlen ⊢
        omega

theorem withinDesc_succ (fuel r proj : Nat) (items : List WorkItem)
    (x : Nat) :
    withinDesc (fuel + 1) r proj items x =
      ((items.filter fun c =>
          c.parent_id == some r && c.project_id == proj).any
        fun c => c.id == x || withinDesc fuel c.id proj items x) := rfl

theorem chain_to_withinDesc {items : List WorkItem} {proj : Nat} :
    ∀ {r x : Nat} {ids : List Nat}, Chain items proj r ids x →
      withinDesc ids.length r proj items x = true := by
  intro r x ids hch
  induction hch with
  | single h =>
    rename_i r2 c
    obtain ⟨w, hw, hid, hpar, hproj⟩ := h
    rw [show ([c] : List Nat).length = 0 + 1 from rfl, withinDesc_succ,
      List.any_eq_true]
    refine ⟨w, ?_, ?_⟩
    · rw [List.mem_filter]
      exact ⟨hw, by simp [hpar, hproj]⟩
    · simp [hid]
  | cons h htail ih =>
    rename_i r2 c x2 ids2
    obtain ⟨w, hw, hid, hpar, hproj⟩ := h
    show withinDesc (ids2.length + 1) r2 proj items x2 = true
    rw [withinDesc_succ, List.any_eq_true]
    refine ⟨w, ?_, ?_⟩
    · rw [List.mem_filter]
      exact ⟨hw, by simp [hpar, hproj]⟩
    · rw [Bool.or_eq_true]
      right
      rw [hid]
      exact ih

theorem withinDesc_mono {items : List WorkItem} {proj : Nat} :
    ∀ {m n : Nat}, m ≤ n → ∀ {r x : Nat},
      withinDesc m r proj items x = true →
      withinDesc n r proj items x = true := by
  intro m
  induction m with
  | zero =>
    intro n _ r x h
    simp [withinDesc] at h
  | succ m ih =>
    intro n hmn r x h
    match n, hmn with
    | n + 1, hmn2 =>
      rw [withinDesc_succ, List.any_eq_true] at h ⊢
      obtain ⟨c, hc, hcond⟩ := h
      refine ⟨c, hc, ?_⟩
      rw [Bool.or_eq_true] at hcond ⊢
      rcases hcond with h1 | h2
      · exact Or.inl h1
      · exact Or.inr (ih (Nat.le_of_succ_le_succ hmn2) h2)

theorem withinDesc_to_desc {items : List WorkItem} {proj : Nat} :
    ∀ (fuel : Nat) {r x : Nat},
      withinDesc fuel r proj items x = true → Descendant items proj r x := by
  intro fuel
  induction fuel with
  | zero =>
    intro r x h
    simp [withinDesc] at h
  | succ fuel ih =>
    intro r x h
    rw [withinDesc_succ, List.any_eq_true] at h
    obtain ⟨c, hc, hcond⟩ := h
    rw [List.mem_filter] at hc
    obtain ⟨hcm, hcb⟩ := hc
    simp only [Bool.and_eq_true, beq_iff_eq] at hcb
    have hchild : childOf items proj r c.id :=
      ⟨c, hcm, rfl, hcb.1, hcb.2⟩
    rw [Bool.or_eq_true] at hcond
    rcases hcond with h1 | h2
    · rw [beq_iff_eq] at h1
      subst h1
      exact .child hchild
    · exact desc_prepend hchild (ih h2)

/-- On a store with distinct ids, the fuelled reachability check with the
store size as fuel decides the descendant relation. -/
theorem desc_iff_withinDesc {items : List WorkItem} {proj r x : Nat}
    (hnodup : (items.map fun w => w.id).Nodup) :
    Descendant items proj r x ↔
      withinDesc items.length r proj items x = true := by
  constructor
  · intro hd
    obtain ⟨ids, hch⟩ := desc_iff_chain.mp hd
    obtain ⟨ids2, hch2, hlen⟩ :=
      chain_bound hnodup ids.length (Nat.le_refl _) hch
    exact withinDesc_mono hlen (chain_to_withinDesc hch2)
  · exact withinDesc_to_desc _

theorem forall2_map_self {α : Type} (l : List α) (f : α → α)
    (P : α → α → Prop) (h : ∀ x ∈ l, P x (f x)) :
    List.Forall₂ P l (l.map f) := by
  induction l with
  | nil => exact .nil
  | cons a t ih =>
    exact .cons (h a (List.mem_cons_self a t))
      (ih fun x hx => h x (List.mem_cons.mpr (Or.inr hx)))

/-- Claim C8: updating a work item's state to Removed also sets the state
of all of its descendants (children, transitively, within the project) to
Removed, and leaves every work item outside that subtree — in particular
siblings — entirely unchanged.  Stated under the store invariants that the
item is found uniquely in the project and ids are distinct. -/
theorem update_work_item_removed_cascade (db : DB) (pid wid : Nat)
    (target : WorkItem)
    (hfound : db.workItems.filter
      (fun w => w.id == wid && w.project_id == pid) = [target])
    (hnodup : (db.workItems.map fun w => w.id).Nodup) :
    ∃ db2 w2,
      update_work_item db pid wid
        ⟨none, none, some .removed, none, none, none, none, none, none⟩ =
        .ok (db2, w2) ∧
      w2 = {target with state := .removed} ∧
      List.Forall₂ (fun w w' =>
        ((w.id = wid ∨ Descendant db.workItems pid wid w.id) →
          w' = {w with state := .removed}) ∧
        (¬(w.id = wid ∨ Descendant db.workItems pid wid w.id) → w' = w))
        db.workItems db2.workItems := by
  have htmem := List.mem_filter.mp (hfound ▸ List.mem_singleton_self target)
  have htid : target.id = wid := by
    have := htmem.2
    simp only [Bool.and_eq_true, beq_iff_eq] at this
    exact this.1
  have hmap : (db.workItems.map fun w =>
      if w.id == wid then {target with state := WorkItemState.removed}
      else w) = db.workItems.map (markIf fun i => i == wid) := by
    apply List.map_congr_left
    intro w hw
    by_cases h : w.id = wid
    · have hwt : w = target :=
        List.inj_on_of_nodup_map hnodup hw htmem.1 (by rw [h, htid])
      subst hwt
      simp [markIf, markRemoved, h]
    · simp [markIf, h]
  have hv : update_work_item db pid wid
      ⟨none, none, some .removed, none, none, none, none, none, none⟩ =
      .ok (⟨db.projects, db.users, db.members, db.iterations,
        _set_removed_recursive
          (db.workItems.map fun w =>
            if w.id == wid then {target with state := WorkItemState.removed}
            else w).length
          wid pid
          (db.workItems.map fun w =>
            if w.id == wid then {target with state := WorkItemState.removed}
            else w),
        db.sessions, db.dropItems⟩,
        {target with state := WorkItemState.removed}) := by
    unfold update_work_item
    rw [hfound]
    rfl
  rw [hmap, List.length_map,
    srr_map_markIf db.workItems.length pid wid db.workItems
      (fun i => i == wid)] at hv
  refine ⟨_, _, hv, rfl, ?_⟩
  show List.Forall₂ _ db.workItems (db.workItems.map _)
  apply forall2_map_self
  intro w hw
  constructor
  · intro hcase
    have hB : ((w.id == wid) ||
        withinDesc db.workItems.length wid pid db.workItems w.id) = true := by
      rcases hcase with h | h
      · simp [h]
      · simp [(desc_iff_withinDesc hnodup).mp h]
    simp [markIf, hB, markRemoved]
  · intro hcase
    have h1 : w.id ≠ wid := fun h => hcase (Or.inl h)
    have h2 : ¬ Descendant db.workItems pid wid w.id :=
      fun h => hcase (Or.inr h)
    have h3 : withinDesc db.workItems.length wid pid db.workItems w.id =
        false := by
      cases hwd : withinDesc db.workItems.length wid pid db.workItems w.id with
      | false => rfl
      | true => exact absurd (withinDesc_to_desc _ hwd) h2
    simp [markIf, h1, h3]

/-- Concrete store for the C8 witness: a Feature with two UserStories; the
first story has two Task children, the second is its sibling. -/
def cascadeDB : DB where
  projects := [⟨1⟩]
  users := []
  members := []
  iterations := []
  workItems :=
    [⟨1, 1, .feature, "Feat A", .new, none, none, none, none, none, none⟩,
     ⟨2, 1, .userStory, "Story B", .new, some 1, none, none, none, none, none⟩,
     ⟨3, 1, .userStory, "Story C", .new, some 1, none, none, none, none, none⟩,
     ⟨4, 1, .task, "Task D", .new, some 2, none, none, none, none, none⟩,
     ⟨5, 1, .task, "Task E", .new, some 2, none, none, none, none, none⟩]
  sessions := []
  dropItems := []

/-- Witness for C8: removing Story B (id 2) marks it and its Task children
4, 5 Removed while the Feature and the sibling Story C keep their state. -/
theorem update_work_item_removed_cascade_witness :
    ∃ db2 w2,
      update_work_item cascadeDB 1 2
        ⟨none, none, some .removed, none, none, none, none, none, none⟩ =
        .ok (db2, w2) ∧
      List.Forall₂ (fun w w' =>
        ((w.id = 2 ∨ Descendant cascadeDB.workItems 1 2 w.id) →
          w' = {w with state := .removed}) ∧
        (¬(w.id = 2 ∨ Descendant cascadeDB.workItems 1 2 w.id) → w' = w))
        cascadeDB.workItems db2.workItems := by
  obtain ⟨db2, w2, hv, _, hfa⟩ := update_work_item_removed_cascade cascadeDB
    1 2 ⟨2, 1, .userStory, "Story B", .new, some 1, none, none, none, none,
      none⟩
    (by decide) (by decide)
  exact ⟨db2, w2, hv, hfa⟩

end Foton
